import Mathlib

/-!
Shallow embedding of the scheduling core of the `epil_client1` appointment
booking engine (source: `src/app/logic.py`, `src/app/scheduler.py`,
`src/app/models.py`).

Modelling conventions:
* Instants (`datetime`) are modelled as `Int` minutes on a single time axis.
  The pytz conversions `_to_utc` / `_to_tz` and `tz.localize` are
  order- and interval-preserving bijections between the local and UTC axes,
  so both axes collapse to the same `Int` axis here; conversions are the
  identity.  `dt.minute` is `t % 60` and Python's `//`, `%` on nonnegative
  operands agree with `Int.ediv` / `Int.emod` used here.
* Calendar dates (`date`) are modelled as `Int` day numbers with
  `weekday d = d % 7` (an affine renaming of Python's proleptic-Gregorian
  ordinals, under which `date.weekday()` is also `(dayNumber) % 7`).
* The SQLAlchemy session is modelled as an explicit `DB` value; a raised
  `ValueError("SLOT_TAKEN")` / `("SLOT_BLOCKED")` / `("NOT_BOOKED")` becomes
  `Except.error` (the enclosing transaction rolls back, so an error result
  carries no state change).
* `pg_advisory_xact_lock` has no effect on the stored state inside a single
  serialized execution, so the lock acquisition lines are not represented in
  the state transformer; the overlap re-checks that follow them are.
* `Numeric` money columns are abstracted to `Int`; free-text columns to
  `String`/`Option String`.  Neither affects any control flow modelled here
  except the Python falsiness test on `rule.reason`.
-/

namespace Epil

/-- Source `app/models.py`: `class AppointmentStatus(str, enum.Enum)`. -/
inductive AppointmentStatus where
  | Hold
  | Booked
  | Rejected
  | Canceled
  | Completed
deriving DecidableEq, Repr

/-- The `ValueError` codes raised by the scheduling core
(`"SLOT_TAKEN"`, `"SLOT_BLOCKED"`, `"NOT_BOOKED"`). -/
inductive Err where
  | SlotTaken
  | SlotBlocked
  | NotBooked
deriving DecidableEq, Repr

/-- Source `app/logic.py`: `SettingsView` (times of day as minutes after midnight). -/
structure SettingsView where
  slot_step_min : Int
  buffer_min : Int
  min_lead_time_min : Int
  booking_horizon_days : Int
  hold_ttl_min : Int
  cancel_limit_hours : Int
  work_start : Int
  work_end : Int
  work_days : List Int
deriving DecidableEq, Repr

/-- Source `app/models.py`: `class Service` (`price` abstracted to `Int`). -/
structure Service where
  id : Nat
  name : String
  price : Int
  duration_min : Int
  buffer_min : Int
  is_active : Bool
  sort_order : Int
deriving DecidableEq, Repr

/-- Source `app/models.py`: `class Appointment` (instants as `Int` minutes). -/
structure Appointment where
  id : Nat
  client_user_id : Nat
  service_id : Nat
  start_dt : Int
  end_dt : Int
  status : AppointmentStatus
  hold_expires_at : Option Int
  client_comment : Option String
  admin_comment : Option String
  price_override : Option Int
  proposed_alt_start_dt : Option Int
  reminder_24h_sent : Bool
  reminder_2h_sent : Bool
  visit_confirmed : Bool
  created_at : Int
  updated_at : Int
deriving DecidableEq, Repr

/-- Source `app/models.py`: `class BlockedInterval`. -/
structure BlockedInterval where
  id : Nat
  start_dt : Int
  end_dt : Int
  reason : String
  created_at : Int
  created_by_admin : Int
deriving DecidableEq, Repr

/-- Source `app/models.py`: `class BreakRule` (`repeat` renamed `repeat_kind`,
`start_time` as minutes after midnight, dates as day numbers). -/
structure BreakRule where
  id : Nat
  repeat_kind : String
  start_time : Int
  duration_min : Int
  reason : Option String
  weekday : Option Int
  start_date : Int
  last_generated_date : Option Int
  created_at : Int
  created_by_admin : Int
deriving DecidableEq, Repr

/-- The transactional store: the `appointments`, `blocked_intervals` and
`break_rules` tables, plus the primary-key counters the database assigns on
`flush`. -/
structure DB where
  appointments : List Appointment
  blocks : List BlockedInterval
  break_rules : List BreakRule
  next_appt_id : Nat
  next_block_id : Nat
deriving DecidableEq, Repr

/-- Test `status in (Hold, Booked)` — the statuses that occupy the calendar. -/
def activeStatus (st : AppointmentStatus) : Bool :=
  st = AppointmentStatus.Hold || st = AppointmentStatus.Booked

/-- The SQL overlap test used everywhere in `logic.py`:
`start_dt < end_utc AND end_dt > start_utc` on half-open spans. -/
def spanOverlap (s1 e1 s2 e2 : Int) : Bool :=
  s1 < e2 && e1 > s2

/-- Source `app/logic.py` `_round_slot`: `m = (dt.minute // step) * step;
dt.replace(minute=m, second=0, microsecond=0)`. -/
def _round_slot (t : Int) (step_min : Int) : Int :=
  t - t % 60 + (t % 60 / step_min) * step_min

/-- Source `app/logic.py` `compute_slot_end`:
`start + duration + service buffer + global buffer` (minutes). -/
def compute_slot_end (start_local : Int) (service : Service)
    (settings : SettingsView) : Int :=
  start_local + (service.duration_min + service.buffer_min + settings.buffer_min)

/-- Source `app/logic.py` `compute_slot_end_for_duration`: as `compute_slot_end`
but with a caller-supplied duration. -/
def compute_slot_end_for_duration (start_local : Int) (duration_min : Int)
    (service : Service) (settings : SettingsView) : Int :=
  start_local + (duration_min + service.buffer_min + settings.buffer_min)

/-- The appointment-overlap query of `_ensure_slot_available`: is there an
active (Hold/Booked) appointment overlapping `[s, e)`, excluding
`exclude_appt_id` when given? -/
def apptOverlapExists (db : DB) (s e : Int) (exclude_appt_id : Option Nat) : Bool :=
  db.appointments.any fun a =>
    a.start_dt < e && a.end_dt > s && activeStatus a.status &&
      (match exclude_appt_id with
       | some i => a.id ≠ i
       | none => true)

/-- The blocked-interval-overlap query of `_ensure_slot_available`. -/
def blockOverlapExists (db : DB) (s e : Int) : Bool :=
  db.blocks.any fun b => b.start_dt < e && b.end_dt > s

/-- Source `app/logic.py` `_ensure_slot_available`: after taking the advisory lock
(whose key is derived from `start_utc` and `service_id` and which has no
effect on the store in a serialized execution), re-check appointments
(raising `SLOT_TAKEN`) then blocked intervals (raising `SLOT_BLOCKED`). -/
def _ensure_slot_available (db : DB) (start_utc end_utc : Int)
    (service_id : Nat) (exclude_appt_id : Option Nat := none) : Except Err Unit :=
  let _lock_key := service_id
  if apptOverlapExists db start_utc end_utc exclude_appt_id then
    Except.error Err.SlotTaken
  else if blockOverlapExists db start_utc end_utc then
    Except.error Err.SlotBlocked
  else
    Except.ok ()

/-- Source `app/logic.py` `create_hold_appointment`: check availability, then insert
a `Hold` appointment with `hold_expires_at = now + hold_ttl_min`. -/
def create_hold_appointment (db : DB) (settings : SettingsView)
    (client_user_id : Nat) (service : Service) (start_local : Int)
    (comment : Option String) (now_utc : Int) : Except Err DB :=
  let start_utc := start_local
  let end_utc := compute_slot_end start_local service settings
  match _ensure_slot_available db start_utc end_utc service.id none with
  | Except.error e => Except.error e
  | Except.ok _ =>
    let appt : Appointment :=
      { id := db.next_appt_id,
        client_user_id := client_user_id,
        service_id := service.id,
        start_dt := start_utc,
        end_dt := end_utc,
        status := AppointmentStatus.Hold,
        hold_expires_at := some (now_utc + settings.hold_ttl_min),
        client_comment := comment
        admin_comment := none
        price_override := none
        proposed_alt_start_dt := none
        reminder_24h_sent := false
        reminder_2h_sent := false
        visit_confirmed := false
        created_at := now_utc
        updated_at := now_utc }
    Except.ok { db with
      appointments := db.appointments ++ [appt],
      next_appt_id := db.next_appt_id + 1 }

/-- Source `app/logic.py` `create_admin_appointment`: check availability, then insert
a `Booked` appointment with no TTL. -/
def create_admin_appointment (db : DB) (settings : SettingsView)
    (client_user_id : Nat) (service : Service) (start_local : Int)
    (price_override : Option Int) (client_comment admin_comment : Option String)
    (now_utc : Int) : Except Err DB :=
  let start_utc := start_local
  let end_utc := compute_slot_end start_local service settings
  match _ensure_slot_available db start_utc end_utc service.id none with
  | Except.error e => Except.error e
  | Except.ok _ =>
    let appt : Appointment :=
      { id := db.next_appt_id,
        client_user_id := client_user_id,
        service_id := service.id,
        start_dt := start_utc,
        end_dt := end_utc,
        status := AppointmentStatus.Booked,
        hold_expires_at := none,
        client_comment := client_comment
        admin_comment := admin_comment
        price_override := price_override
        proposed_alt_start_dt := none
        reminder_24h_sent := false
        reminder_2h_sent := false
        visit_confirmed := false
        created_at := now_utc
        updated_at := now_utc }
    Except.ok { db with
      appointments := db.appointments ++ [appt],
      next_appt_id := db.next_appt_id + 1 }

/-- ORM row update: apply `f` to the appointment rows with id `i` (the ORM
mutates the one object fetched for that primary key; ids are unique). -/
def updateAppt (db : DB) (i : Nat) (f : Appointment → Appointment) : DB :=
  { db with appointments := db.appointments.map fun a => if a.id = i then f a else a }

/-- Fetch the appointment object for a primary key, as the ORM session does. -/
def findAppt (db : DB) (i : Nat) : Option Appointment :=
  db.appointments.find? fun a => a.id = i

/-- Source `app/logic.py` `request_reschedule`: hard `NOT_BOOKED` unless `Booked`;
the new span keeps the appointment's own length `end_dt - start_dt`;
re-check overlaps excluding the appointment itself; on success set only
`proposed_alt_start_dt` and `updated_at`. -/
def request_reschedule (db : DB) (apptId : Nat) (new_start_local : Int)
    (now_utc : Int) : Except Err DB :=
  match findAppt db apptId with
  | none => Except.ok db
  | some appt =>
    if appt.status ≠ AppointmentStatus.Booked then
      Except.error Err.NotBooked
    else
      let start_utc := new_start_local
      let end_utc := start_utc + (appt.end_dt - appt.start_dt)
      if apptOverlapExists db start_utc end_utc (some apptId) then
        Except.error Err.SlotTaken
      else if blockOverlapExists db start_utc end_utc then
        Except.error Err.SlotBlocked
      else
        Except.ok (updateAppt db apptId fun a =>
          { a with proposed_alt_start_dt := some start_utc, updated_at := now_utc })

/-- Source `app/logic.py` `confirm_reschedule`: silently returns unless `Booked` with
a pending proposal; re-validates the proposed span (excluding itself); on
success moves `start_dt`/`end_dt`, clears the proposal, resets the reminder
and visit flags. -/
def confirm_reschedule (db : DB) (apptId : Nat) (now_utc : Int) : Except Err DB :=
  match findAppt db apptId with
  | none => Except.ok db
  | some appt =>
    match appt.proposed_alt_start_dt with
    | none => Except.ok db
    | some proposed =>
      if appt.status ≠ AppointmentStatus.Booked then
        Except.ok db
      else
        let start_utc := proposed
        let end_utc := start_utc + (appt.end_dt - appt.start_dt)
        if apptOverlapExists db start_utc end_utc (some apptId) then
          Except.error Err.SlotTaken
        else if blockOverlapExists db start_utc end_utc then
          Except.error Err.SlotBlocked
        else
          Except.ok (updateAppt db apptId fun a =>
            { a with
              start_dt := start_utc,
              end_dt := end_utc,
              proposed_alt_start_dt := none,
              reminder_24h_sent := false,
              reminder_2h_sent := false,
              visit_confirmed := false,
              updated_at := now_utc })

/-- Source `app/logic.py` `reject_reschedule`: no-op without a pending proposal;
otherwise clear `proposed_alt_start_dt` only. -/
def reject_reschedule (db : DB) (apptId : Nat) (now_utc : Int) : DB :=
  match findAppt db apptId with
  | none => db
  | some appt =>
    match appt.proposed_alt_start_dt with
    | none => db
    | some _ =>
      updateAppt db apptId fun a =>
        { a with proposed_alt_start_dt := none, updated_at := now_utc }

/-- Source `app/logic.py` `admin_confirm`: `Hold → Booked`, clearing the TTL;
no-op from any other status. -/
def admin_confirm (db : DB) (apptId : Nat) (now_utc : Int) : DB :=
  match findAppt db apptId with
  | none => db
  | some appt =>
    if appt.status ≠ AppointmentStatus.Hold then db
    else
      updateAppt db apptId fun a =>
        { a with
          status := AppointmentStatus.Booked,
          hold_expires_at := none,
          updated_at := now_utc }

/-- Source `app/logic.py` `admin_reject`: `if appt.status not in (Hold, Booked):
return`; otherwise set `Rejected`, record the reason, clear the TTL. -/
def admin_reject (db : DB) (apptId : Nat) (reason : Option String)
    (now_utc : Int) : DB :=
  match findAppt db apptId with
  | none => db
  | some appt =>
    if appt.status = AppointmentStatus.Hold ∨ appt.status = AppointmentStatus.Booked then
      updateAppt db apptId fun a =>
        { a with
          status := AppointmentStatus.Rejected,
          admin_comment := reason,
          hold_expires_at := none,
          updated_at := now_utc }
    else db

/-- Source `app/logic.py` `cancel_by_client`: `False` (no change) unless `Booked`;
`False` past the cancellation cutoff; otherwise `Canceled`, `True`. -/
def cancel_by_client (db : DB) (settings : SettingsView) (apptId : Nat)
    (now_utc : Int) : Bool × DB :=
  match findAppt db apptId with
  | none => (false, db)
  | some appt =>
    if appt.status ≠ AppointmentStatus.Booked then (false, db)
    else if now_utc > appt.start_dt - settings.cancel_limit_hours * 60 then (false, db)
    else
      (true, updateAppt db apptId fun a =>
        { a with status := AppointmentStatus.Canceled, updated_at := now_utc })

/-- Source `app/handlers.py` `admin_visit_confirm` (the state mutation of
the visit-confirm path): always record the visit flag and stamp
`updated_at`; transition to `Completed` only when the appointment is
`Booked` and has already ended (`end_dt <= now`) — any other status is left
untouched, and no error is ever raised. -/
def admin_visit_confirm (db : DB) (apptId : Nat) (now_utc : Int) : DB :=
  match findAppt db apptId with
  | none => db
  | some appt =>
    updateAppt db apptId fun a =>
      { a with
        visit_confirmed := true,
        status :=
          if appt.status = AppointmentStatus.Booked ∧ appt.end_dt ≤ now_utc then
            AppointmentStatus.Completed
          else a.status,
        updated_at := now_utc }

/-! ### Hold expiration sweeper (`app/scheduler.py` `tick`) -/

/-- One queued outbound message of the sweeper: the `(chat_id, text)` pair,
abstracted to the client reference the chat id is resolved from and the
appointment the text is rendered from. -/
structure Notification where
  client_user_id : Nat
  appt_id : Nat
deriving DecidableEq, Repr

/-- The sweeper's due-hold filter:
`status == Hold AND hold_expires_at IS NOT NULL AND hold_expires_at <= now`. -/
def holdDue (now_utc : Int) (a : Appointment) : Bool :=
  a.status = AppointmentStatus.Hold &&
    (match a.hold_expires_at with
     | some t => t ≤ now_utc
     | none => false)

/-- Source `app/scheduler.py` `tick`: select the due holds; if none, return with no
messages; otherwise set each to `Rejected`, commit, and only then send the
collected notifications (modelled as the returned list, one per due hold). -/
def tick (db : DB) (now_utc : Int) : DB × List Notification :=
  let expired := db.appointments.filter (holdDue now_utc)
  if expired.isEmpty then (db, [])
  else
    let db' := { db with
      appointments := db.appointments.map fun a =>
        if holdDue now_utc a then
          { a with status := AppointmentStatus.Rejected, updated_at := now_utc }
        else a }
    (db', expired.map fun a => { client_user_id := a.client_user_id, appt_id := a.id })

/-! ### Availability calculator (`app/logic.py` `list_available_slots_for_duration`) -/

/-- The candidate cursor loop `while cursor < work_end: ...; cursor += step`,
with explicit fuel (the Python loop terminates because `step >= 1`; every
use below supplies fuel larger than the iteration count). -/
def slotCursor (cursor work_end step : Int) : Nat → List Int
  | 0 => []
  | Nat.succ fuel =>
    if cursor < work_end then cursor :: slotCursor (cursor + step) work_end step fuel
    else []

/-- The widened-window prefetch of appointments in
`list_available_slots_for_duration`: active rows intersecting
`[window_start, window_end)`. -/
def windowAppts (db : DB) (window_start window_end : Int) : List Appointment :=
  db.appointments.filter fun a =>
    a.start_dt < window_end && a.end_dt > window_start && activeStatus a.status

/-- The widened-window prefetch of blocked intervals. -/
def windowBlocks (db : DB) (window_start window_end : Int) : List BlockedInterval :=
  db.blocks.filter fun b => b.start_dt < window_end && b.end_dt > window_start

/-- The inner `overlaps(start_utc, end_utc)` closure: scan the two prefetched
lists for a half-open intersection. -/
def overlapsPrefetched (appts : List Appointment) (blocks : List BlockedInterval)
    (s e : Int) : Bool :=
  appts.any (fun a => a.start_dt < e && a.end_dt > s) ||
    blocks.any (fun b => b.start_dt < e && b.end_dt > s)

/-- Source `app/logic.py` `list_available_slots_for_duration`.  `day` is a day
number; the work window is `day` combined with the settings' work times; the
lookup window is the work window extended 6 hours past close; candidates
start at `_round_slot(work_start)` and step by `slot_step_min`; a candidate
is kept when it is at or after `now + min_lead_time_min`, its occupied end
(`compute_slot_end_for_duration`) is within the work window, and it overlaps
no prefetched appointment or blocked interval. -/
def list_available_slots_for_duration (db : DB) (settings : SettingsView)
    (service : Service) (day : Int) (duration_min : Int)
    (now_local : Int) : List Int :=
  let earliest_local := now_local + settings.min_lead_time_min
  let work_start_local := day * 1440 + settings.work_start
  let work_end_local := day * 1440 + settings.work_end
  let step := settings.slot_step_min
  let cursor0 := _round_slot work_start_local step
  let window_start := work_start_local
  let window_end := work_end_local + 360
  let appts := windowAppts db window_start window_end
  let blocks := windowBlocks db window_start window_end
  let candidates := slotCursor cursor0 work_end_local step
    ((work_end_local - cursor0).toNat + 1)
  candidates.filter fun cursor =>
    cursor ≥ earliest_local &&
      (let end_local := compute_slot_end_for_duration cursor duration_min service settings
       end_local ≤ work_end_local && !overlapsPrefetched appts blocks cursor end_local)

/-! ### Break rules (`app/logic.py` `_break_rule_due_dates`,
`create_blocked_interval`, `generate_breaks_from_rules`) -/

/-- Source `app/logic.py` `create_blocked_interval`: the §4.2 overlap checks
(without the advisory lock), then insert the interval
`[start, start + duration)`. -/
def create_blocked_interval (db : DB) (start_local : Int) (duration_min : Int)
    (created_by_admin : Int) (reason : String) (now_utc : Int) : Except Err DB :=
  let start_utc := start_local
  let end_utc := start_local + duration_min
  if apptOverlapExists db start_utc end_utc none then
    Except.error Err.SlotTaken
  else if blockOverlapExists db start_utc end_utc then
    Except.error Err.SlotBlocked
  else
    Except.ok { db with
      blocks := db.blocks ++
        [{ id := db.next_block_id,
           start_dt := start_utc,
           end_dt := end_utc,
           reason := reason,
           created_at := now_utc,
           created_by_admin := created_by_admin }],
      next_block_id := db.next_block_id + 1 }

/-- Source `app/logic.py` `_candidate_break_start`: the rule's time of day on the
candidate date. -/
def _candidate_break_start (rule : BreakRule) (day : Int) : Int :=
  day * 1440 + rule.start_time

/-- The repeat step: 1 day for `"daily"`, 7 for `"weekly"`, none otherwise. -/
def repeatStep (repeat_kind : String) : Option Int :=
  if repeat_kind = "daily" then some 1
  else if repeat_kind = "weekly" then some 7
  else none

/-- The cursor loop of `_break_rule_due_dates`:
`while cursor <= through_day: if cursor.weekday() in work_days: append;
cursor += step`, with explicit fuel. -/
def dueDatesAux (cursor through step : Int) (work_days : List Int) :
    Nat → List Int
  | 0 => []
  | Nat.succ fuel =>
    if cursor ≤ through then
      if cursor % 7 ∈ work_days then
        cursor :: dueDatesAux (cursor + step) through step work_days fuel
      else dueDatesAux (cursor + step) through step work_days fuel
    else []

/-- Source `app/logic.py` `_break_rule_due_dates`: start from `start_date`, or from
`last_generated_date + step` when `last_generated_date > start_date`. -/
def _break_rule_due_dates (rule : BreakRule) (through_day : Int)
    (work_days : List Int) : List Int :=
  match repeatStep rule.repeat_kind with
  | none => []
  | some step =>
    let cursor :=
      match rule.last_generated_date with
      | some lg => if lg > rule.start_date then lg + step else rule.start_date
      | none => rule.start_date
    dueDatesAux cursor through_day step work_days ((through_day - cursor).toNat + 1)

/-- The `work_days` a rule is expanded over: a weekly rule with an anchor
weekday always includes that weekday (`settings.work_days | {rule.weekday}`). -/
def ruleWorkDays (settings : SettingsView) (rule : BreakRule) : List Int :=
  if rule.repeat_kind = "weekly" then
    match rule.weekday with
    | some w => if w ∈ settings.work_days then settings.work_days else w :: settings.work_days
    | none => settings.work_days
  else settings.work_days

/-- Python `rule.reason or "Перерыв"` (both `None` and `""` are falsy). -/
def ruleReason (rule : BreakRule) : String :=
  match rule.reason with
  | some r => if r = "" then "Перерыв" else r
  | none => "Перерыв"

/-- The inner `for day in candidate_days` loop of
`generate_breaks_from_rules`: attempt each interval, counting creations and
`SLOT_TAKEN`/`SLOT_BLOCKED` skips; returns (store, created, skipped). -/
def processDays (rule : BreakRule) (days : List Int) (db : DB)
    (now_utc : Int) : DB × Nat × Nat :=
  match days with
  | [] => (db, 0, 0)
  | d :: rest =>
    match create_blocked_interval db (_candidate_break_start rule d)
        rule.duration_min rule.created_by_admin (ruleReason rule) now_utc with
    | Except.ok db2 =>
      let res := processDays rule rest db2 now_utc
      (res.1, res.2.1 + 1, res.2.2)
    | Except.error _ =>
      let res := processDays rule rest db now_utc
      (res.1, res.2.1, res.2.2 + 1)

/-- The pure rule mutation one pass applies: advance `last_generated_date`
to `candidate_days[-1]` when any candidate date was considered. -/
def ruleAfter (settings : SettingsView) (through_day : Int)
    (rule : BreakRule) : BreakRule :=
  if rule.repeat_kind = "daily" ∨ rule.repeat_kind = "weekly" then
    match (_break_rule_due_dates rule through_day
        (ruleWorkDays settings rule)).getLast? with
    | some lastDay => { rule with last_generated_date := some lastDay }
    | none => rule
  else rule

/-- One rule's pass in `generate_breaks_from_rules`: skip non-recurring
rules, expand the candidate dates, then advance `last_generated_date`;
returns (mutated rule, store, created, skipped). -/
def processRule (settings : SettingsView) (through_day : Int) (rule : BreakRule)
    (db : DB) (now_utc : Int) : BreakRule × DB × Nat × Nat :=
  if rule.repeat_kind = "daily" ∨ rule.repeat_kind = "weekly" then
    let cds := _break_rule_due_dates rule through_day (ruleWorkDays settings rule)
    let res := processDays rule cds db now_utc
    (ruleAfter settings through_day rule, res.1, res.2.1, res.2.2)
  else (rule, db, 0, 0)

/-- The `for rule in rules` loop: the fetched rule objects are processed and
mutated in order; the store's rule rows afterwards are exactly the mutated
objects. -/
def processRules (settings : SettingsView) (through_day : Int)
    (rules : List BreakRule) (db : DB) (now_utc : Int) :
    List BreakRule × DB × Nat × Nat :=
  match rules with
  | [] => ([], db, 0, 0)
  | r :: rest =>
    let hd := processRule settings through_day r db now_utc
    let tl := processRules settings through_day rest hd.2.1 now_utc
    (hd.1 :: tl.1, tl.2.1, hd.2.2.1 + tl.2.2.1, hd.2.2.2 + tl.2.2.2)

/-- Source `app/logic.py` `generate_breaks_from_rules`: expand every rule through
`today + horizon_days`, returning (store, created, skipped). -/
def generate_breaks_from_rules (db : DB) (settings : SettingsView)
    (horizon_days : Int) (now_local : Int) (now_utc : Int) : DB × Nat × Nat :=
  let through_day := (now_local + horizon_days * 1440) / 1440
  let res := processRules settings through_day db.break_rules db now_utc
  ({ res.2.1 with break_rules := res.1 }, res.2.2.1, res.2.2.2)

/-- The overlap checks of `create_blocked_interval` reject the span
`[s, e)` (an appointment conflict or a blocked-interval conflict). -/
def createFails (db : DB) (s e : Int) : Prop :=
  apptOverlapExists db s e none = true ∨ blockOverlapExists db s e = true

/-- Decidable equality for transaction outcomes, so concrete runs can be
checked by `decide`. -/
instance {e a : Type} [DecidableEq e] [DecidableEq a] : DecidableEq (Except e a) := fun x y =>
  match x, y with
  | Except.ok v, Except.ok w =>
    if h : v = w then Decidable.isTrue (by rw [h])
    else Decidable.isFalse (by intro hc; cases hc; exact h rfl)
  | Except.error v, Except.error w =>
    if h : v = w then Decidable.isTrue (by rw [h])
    else Decidable.isFalse (by intro hc; cases hc; exact h rfl)
  | Except.ok _, Except.error _ => Decidable.isFalse (by intro hc; cases hc)
  | Except.error _, Except.ok _ => Decidable.isFalse (by intro hc; cases hc)

/-! ### Concrete fixtures used to evaluate the definitions on explicit
inputs (counterexamples and witnesses).  Times are minutes: `540 = 09:00`,
`840 = 14:00`, `1260 = 21:00`. -/

/-- A service with 40-minute duration and 10-minute service buffer (the
spec's §8 scenario service). -/
def svcA : Service :=
  { id := 1, name := "svc", price := 45, duration_min := 40, buffer_min := 10,
    is_active := true, sort_order := 0 }

/-- Settings: 30-minute step, 10-minute global buffer, zero lead time,
work window 09:00–21:00, every weekday working. -/
def stgA : SettingsView :=
  { slot_step_min := 30, buffer_min := 10, min_lead_time_min := 0,
    booking_horizon_days := 14, hold_ttl_min := 30, cancel_limit_hours := 24,
    work_start := 540, work_end := 1260, work_days := [0, 1, 2, 3, 4, 5, 6] }

/-- Settings whose work-window start (09:10) is not on a 30-minute step
boundary. -/
def stgB : SettingsView := { stgA with work_start := 550, work_end := 720 }

/-- A baseline `Booked` appointment record the fixtures below adjust. -/
def appt0 : Appointment :=
  { id := 1, client_user_id := 1, service_id := 1, start_dt := 0, end_dt := 0,
    status := AppointmentStatus.Booked, hold_expires_at := none,
    client_comment := none, admin_comment := none, price_override := none,
    proposed_alt_start_dt := none, reminder_24h_sent := false,
    reminder_2h_sent := false, visit_confirmed := false,
    created_at := 0, updated_at := 0 }

/-- The empty store. -/
def dbEmpty : DB :=
  { appointments := [], blocks := [], break_rules := [],
    next_appt_id := 1, next_block_id := 1 }

/-- A booking at 14:00 whose occupied span is `[14:00, 15:00)`. -/
def apptBooked1400 : Appointment := { appt0 with start_dt := 840, end_dt := 900 }

/-- Store holding only the 14:00 booking. -/
def dbSlots : DB := { dbEmpty with appointments := [apptBooked1400], next_appt_id := 2 }

/-- A booking `[08:30, 09:05)` that ends before the 09:10 work start of
`stgB`. -/
def apptEarly : Appointment := { appt0 with start_dt := 510, end_dt := 545 }

/-- Store holding only the early booking. -/
def dbEarly : DB := { dbEmpty with appointments := [apptEarly], next_appt_id := 2 }

/-- A hold due at minute 100. -/
def holdDue3 : Appointment :=
  { appt0 with
    id := 3, start_dt := 840, end_dt := 900,
    status := AppointmentStatus.Hold, hold_expires_at := some 100 }

/-- A hold due only at minute 300. -/
def holdLater4 : Appointment :=
  { appt0 with
    id := 4, start_dt := 1000, end_dt := 1100,
    status := AppointmentStatus.Hold, hold_expires_at := some 300 }

/-- Store with one due hold, one live hold and one booking. -/
def dbTick : DB :=
  { dbEmpty with appointments := [holdDue3, holdLater4, apptBooked1400], next_appt_id := 5 }

/-- A `Booked` appointment `[700, 760)` with a pending proposal for 600. -/
def apptProp : Appointment :=
  { appt0 with start_dt := 700, end_dt := 760, proposed_alt_start_dt := some 600 }

/-- Store holding only `apptProp`. -/
def dbProp : DB := { dbEmpty with appointments := [apptProp], next_appt_id := 2 }

/-- The same appointment but still a `Hold` (not `Booked`). -/
def apptHoldProp : Appointment :=
  { apptProp with status := AppointmentStatus.Hold, hold_expires_at := some 100 }

/-- Store holding only `apptHoldProp`. -/
def dbHoldProp : DB := { dbEmpty with appointments := [apptHoldProp], next_appt_id := 2 }

/-- Store `dbProp` after `request_reschedule` to 580 at time 999. -/
def dbPropReq : DB :=
  updateAppt dbProp 1 fun a =>
    { a with proposed_alt_start_dt := some 580, updated_at := 999 }

/-- Store `dbProp` after `confirm_reschedule` at time 999 (moved to `[600, 660)`). -/
def dbPropConf : DB :=
  updateAppt dbProp 1 fun a =>
    { a with
      start_dt := 600, end_dt := 660, proposed_alt_start_dt := none,
      reminder_24h_sent := false, reminder_2h_sent := false,
      visit_confirmed := false, updated_at := 999 }

/-- The hold that `create_hold_appointment dbSlots stgA 1 svcA 900 none 0`
inserts. -/
def apptC1New : Appointment :=
  { appt0 with
    id := 2, start_dt := 900, end_dt := 960,
    status := AppointmentStatus.Hold, hold_expires_at := some 30 }

/-- Store `dbSlots` after that successful hold creation. -/
def dbC1New : DB :=
  { dbSlots with appointments := dbSlots.appointments ++ [apptC1New], next_appt_id := 3 }

/-- A daily break rule at 10:00 for 30 minutes starting on day 0. -/
def bruleDaily : BreakRule :=
  { id := 1, repeat_kind := "daily", start_time := 600, duration_min := 30,
    reason := none, weekday := some 0, start_date := 0,
    last_generated_date := none, created_at := 0, created_by_admin := 9 }

/-- The same rule with `last_generated_date` equal to `start_date`. -/
def bruleEdge : BreakRule := { bruleDaily with last_generated_date := some 0 }

/-- The same rule with `last_generated_date = 5 > start_date`. -/
def bruleFwd : BreakRule := { bruleDaily with last_generated_date := some 5 }

/-- Store with the plain daily rule. -/
def dbBreaks : DB := { dbEmpty with break_rules := [bruleDaily] }

/-- Store with the edge rule (`last_generated_date = start_date`). -/
def dbBreakEdge : DB := { dbEmpty with break_rules := [bruleEdge] }

/-- The §8 invariant: no two appointment rows that are both active
(`Hold`/`Booked`) have intersecting half-open `[start, end)` spans. -/
def NoOverlap (db : DB) : Prop :=
  List.Pairwise (fun a b =>
      activeStatus a.status = true → activeStatus b.status = true →
        spanOverlap a.start_dt a.end_dt b.start_dt b.end_dt = false)
    db.appointments

/-- The invariant is checkable on concrete stores. -/
instance (db : DB) : Decidable (NoOverlap db) :=
  List.instDecidablePairwise _

/-! ## General lemmas -/

/-- An ORM row update relates the old and new appointment tables row by row:
the row with the target id becomes `f` of itself, every other row is
untouched. -/
theorem updateAppt_forall₂ (db : DB) (i : Nat) (f : Appointment → Appointment)
    (R : Appointment → Appointment → Prop)
    (h : ∀ a ∈ db.appointments, (a.id = i → R a (f a)) ∧ (a.id ≠ i → R a a)) :
    List.Forall₂ R db.appointments (updateAppt db i f).appointments := by
  show List.Forall₂ R db.appointments
    (db.appointments.map fun a => if a.id = i then f a else a)
  rw [List.forall₂_map_right_iff, List.forall₂_same]
  intro a ha
  by_cases hid : a.id = i
  · simpa [hid] using (h a ha).1 hid
  · simpa [hid] using (h a ha).2 hid

/-- Specialization of `updateAppt_forall₂` to the frame relation itself:
the row with the target id becomes `f` of itself, every other row is
untouched. -/
theorem updateAppt_frame (db : DB) (i : Nat) (f : Appointment → Appointment) :
    List.Forall₂ (fun a a' => (a.id ≠ i → a' = a) ∧ (a.id = i → a' = f a))
      db.appointments (updateAppt db i f).appointments := by
  show List.Forall₂ _ db.appointments
    (db.appointments.map fun a => if a.id = i then f a else a)
  rw [List.forall₂_map_right_iff, List.forall₂_same]
  intro a _
  by_cases hid : a.id = i
  · rw [if_pos hid]
    exact ⟨fun hne => absurd hid hne, fun _ => rfl⟩
  · rw [if_neg hid]
    exact ⟨fun _ => rfl, fun hid2 => absurd hid2 hid⟩

/-- The row fetched for a primary key is a member of the table and carries
that key. -/
theorem findAppt_mem (db : DB) (i : Nat) (appt : Appointment)
    (hfind : findAppt db i = some appt) :
    appt ∈ db.appointments ∧ appt.id = i := by
  have hm := List.mem_of_find?_eq_some hfind
  have hp := List.find?_some hfind
  exact ⟨hm, by simpa using hp⟩

/-- With unique primary keys, any row carrying the fetched key is the
fetched row. -/
theorem findAppt_unique (db : DB) (i : Nat) (appt : Appointment)
    (hfind : findAppt db i = some appt)
    (hnodup : (db.appointments.map Appointment.id).Nodup)
    (a : Appointment) (ha : a ∈ db.appointments) (hid : a.id = i) : a = appt := by
  obtain ⟨hm, hip⟩ := findAppt_mem db i appt hfind
  exact List.inj_on_of_nodup_map hnodup ha hm (by rw [hid, hip])

/-! ## Claim C2 — hold expiration sweeper -/

/-- Claim C2: Each sweeper run transitions every appointment with status
`Hold` and non-null `holdExpiresAt <= now` to `Rejected` and emits exactly
one notification per such hold (the returned message list — one entry per
due hold, derived only from the rows transitioned in this run; `tick`
returns the committed store together with the messages to be sent only
afterwards); a `Hold` whose `holdExpiresAt > now` is left unchanged; a run
that finds zero due holds emits no notifications and leaves the store
untouched. -/
theorem tick_sweeps_due_holds (db : DB) (now_utc : Int) :
    List.Forall₂ (fun a a' =>
        (holdDue now_utc a = true →
          a' = { a with status := AppointmentStatus.Rejected, updated_at := now_utc }) ∧
        (holdDue now_utc a = false → a' = a))
      db.appointments (tick db now_utc).1.appointments ∧
    (tick db now_utc).2 =
      (db.appointments.filter (holdDue now_utc)).map
        (fun a => { client_user_id := a.client_user_id, appt_id := a.id }) ∧
    (db.appointments.filter (holdDue now_utc) = [] →
      (tick db now_utc).1 = db ∧ (tick db now_utc).2 = []) := by
  by_cases h : (db.appointments.filter (holdDue now_utc)).isEmpty = true
  · have hnil : db.appointments.filter (holdDue now_utc) = [] := List.isEmpty_iff.mp h
    have hall := List.filter_eq_nil_iff.mp hnil
    have htick : tick db now_utc = (db, []) := by
      unfold tick; rw [if_pos h]
    refine ⟨?_, ?_, ?_⟩
    · rw [htick, List.forall₂_same]
      intro a ha
      exact ⟨fun hdue => absurd hdue (hall a ha), fun _ => rfl⟩
    · rw [htick, hnil]; rfl
    · intro _; rw [htick]; exact ⟨rfl, rfl⟩
  · have htick : tick db now_utc =
        ({ db with appointments := db.appointments.map fun a =>
            if holdDue now_utc a then
              { a with status := AppointmentStatus.Rejected, updated_at := now_utc }
            else a },
          (db.appointments.filter (holdDue now_utc)).map
            fun a => { client_user_id := a.client_user_id, appt_id := a.id }) := by
      unfold tick; rw [if_neg h]
    refine ⟨?_, ?_, ?_⟩
    · rw [htick]
      show List.Forall₂ _ db.appointments (db.appointments.map _)
      rw [List.forall₂_map_right_iff, List.forall₂_same]
      intro a _
      constructor
      · intro hdue; rw [if_pos hdue]
      · intro hdue; rw [if_neg (by simp [hdue])]
    · rw [htick]
    · intro hnil
      exact absurd (by rw [hnil]; rfl) h

/-- Witness for C2: on a store with no due holds the sweeper changes nothing
and sends nothing. -/
theorem tick_sweeps_due_holds_witness :
    (tick dbSlots 200).1 = dbSlots ∧ (tick dbSlots 200).2 = [] :=
  (tick_sweeps_due_holds dbSlots 200).2.2 (by decide)

/-! ## Claim C4 — reschedule handshake frame -/

/-- Claim C4: The reschedule handshake is frame-preserving: a successful
proposal sets only `proposed_alt_start_dt` (and `updated_at`), leaving
`start_dt`/`end_dt` and every other field unchanged; a successful approval
sets `start_dt`/`end_dt` to the proposed time (span length carried over),
clears the proposal, resets the reminder and visit flags and touches
nothing else; rejecting a pending proposal clears only
`proposed_alt_start_dt` (and `updated_at`); rows with other ids are never
touched. -/
theorem reschedule_frame (db : DB) (apptId : Nat) (new_start now_utc : Int)
    (appt : Appointment) (hfind : findAppt db apptId = some appt) :
    (∀ db', request_reschedule db apptId new_start now_utc = Except.ok db' →
      List.Forall₂ (fun a a' =>
          (a.id ≠ apptId → a' = a) ∧
          (a.id = apptId →
            a' = { a with proposed_alt_start_dt := some new_start, updated_at := now_utc }))
        db.appointments db'.appointments) ∧
    (∀ db' p, appt.proposed_alt_start_dt = some p →
      appt.status = AppointmentStatus.Booked →
      confirm_reschedule db apptId now_utc = Except.ok db' →
      List.Forall₂ (fun a a' =>
          (a.id ≠ apptId → a' = a) ∧
          (a.id = apptId →
            a' = { a with
              start_dt := p, end_dt := p + (appt.end_dt - appt.start_dt),
              proposed_alt_start_dt := none, reminder_24h_sent := false,
              reminder_2h_sent := false, visit_confirmed := false,
              updated_at := now_utc }))
        db.appointments db'.appointments) ∧
    (appt.proposed_alt_start_dt = none → reject_reschedule db apptId now_utc = db) ∧
    (∀ p, appt.proposed_alt_start_dt = some p →
      List.Forall₂ (fun a a' =>
          (a.id ≠ apptId → a' = a) ∧
          (a.id = apptId →
            a' = { a with proposed_alt_start_dt := none, updated_at := now_utc }))
        db.appointments (reject_reschedule db apptId now_utc).appointments) := by
  refine ⟨?_, ?_, ?_, ?_⟩
  · intro db' hok
    simp only [request_reschedule, hfind] at hok
    by_cases hst : appt.status = AppointmentStatus.Booked
    · rw [if_neg (by simp [hst])] at hok
      by_cases hov : apptOverlapExists db new_start
          (new_start + (appt.end_dt - appt.start_dt)) (some apptId) = true
      · rw [if_pos hov] at hok; cases hok
      · rw [if_neg hov] at hok
        by_cases hbl : blockOverlapExists db new_start
            (new_start + (appt.end_dt - appt.start_dt)) = true
        · rw [if_pos hbl] at hok; cases hok
        · rw [if_neg hbl] at hok
          cases hok
          exact updateAppt_frame db apptId _
    · rw [if_pos (by simp [hst])] at hok; cases hok
  · intro db' p hp hst hok
    simp only [confirm_reschedule, hfind, hp] at hok
    rw [if_neg (by simp [hst])] at hok
    by_cases hov : apptOverlapExists db p
        (p + (appt.end_dt - appt.start_dt)) (some apptId) = true
    · rw [if_pos hov] at hok; cases hok
    · rw [if_neg hov] at hok
      by_cases hbl : blockOverlapExists db p
          (p + (appt.end_dt - appt.start_dt)) = true
      · rw [if_pos hbl] at hok; cases hok
      · rw [if_neg hbl] at hok
        cases hok
        exact updateAppt_frame db apptId _
  · intro hp
    simp only [reject_reschedule, hfind, hp]
  · intro p hp
    simp only [reject_reschedule, hfind, hp]
    exact updateAppt_frame db apptId _

/-- Witness for C4: the concrete propose, approve and reject steps on
`dbProp` (the approve moves `[700, 760)` to the proposed `[600, 660)`). -/
theorem reschedule_frame_witness :
    List.Forall₂ (fun a a' =>
        (a.id ≠ 1 → a' = a) ∧
        (a.id = 1 →
          a' = { a with proposed_alt_start_dt := some 580, updated_at := 999 }))
      dbProp.appointments dbPropReq.appointments ∧
    List.Forall₂ (fun a a' =>
        (a.id ≠ 1 → a' = a) ∧
        (a.id = 1 →
          a' = { a with
            start_dt := (600 : Int), end_dt := 600 + (apptProp.end_dt - apptProp.start_dt),
            proposed_alt_start_dt := none, reminder_24h_sent := false,
            reminder_2h_sent := false, visit_confirmed := false,
            updated_at := (999 : Int) }))
      dbProp.appointments dbPropConf.appointments ∧
    List.Forall₂ (fun a a' =>
        (a.id ≠ 1 → a' = a) ∧
        (a.id = 1 →
          a' = { a with proposed_alt_start_dt := none, updated_at := 999 }))
      dbProp.appointments (reject_reschedule dbProp 1 999).appointments := by
  have h := reschedule_frame dbProp 1 580 999 apptProp (by decide)
  exact ⟨h.1 dbPropReq (by decide),
         h.2.1 dbPropConf 600 (by decide) (by decide) (by decide),
         h.2.2.2 600 (by decide)⟩

/-! ## Claim C8 — invalid-transition semantics -/

/-- Counterexample to C8 as stated: approving a reschedule of an
appointment that is **not** `Booked` (here a `Hold` with a pending
proposal) does not fail with `NotBooked` — `confirm_reschedule` silently
returns with the store unchanged. -/
theorem confirm_reschedule_silent_cex :
    findAppt dbHoldProp 1 = some apptHoldProp ∧
    apptHoldProp.status = AppointmentStatus.Hold ∧
    apptHoldProp.proposed_alt_start_dt = some 600 ∧
    confirm_reschedule dbHoldProp 1 0 = Except.ok dbHoldProp := by decide

/-- Claim C8, amended: Invalid transitions are no-ops (not errors) in the
cancel and visit-confirm paths — `cancel_by_client` of a non-`Booked`
appointment returns `False` and changes nothing, and the visit-confirm
path performs no status transition on an appointment that is not `Booked`
or has not yet ended (it only records the visit flag and `updated_at`),
raising no error — and proposing a reschedule of a non-`Booked` appointment
is a hard `NotBooked` failure; but **approving** a reschedule of an
appointment that is not `Booked` or has no pending proposal silently
returns with the store unchanged (a no-op, not a `NotBooked` failure). -/
theorem invalid_transition_semantics (db : DB) (settings : SettingsView)
    (apptId : Nat) (new_start now_utc : Int) (appt : Appointment)
    (hfind : findAppt db apptId = some appt) :
    (appt.status ≠ AppointmentStatus.Booked →
      request_reschedule db apptId new_start now_utc = Except.error Err.NotBooked) ∧
    (appt.status ≠ AppointmentStatus.Booked ∨ appt.proposed_alt_start_dt = none →
      confirm_reschedule db apptId now_utc = Except.ok db) ∧
    (appt.status ≠ AppointmentStatus.Booked →
      cancel_by_client db settings apptId now_utc = (false, db)) ∧
    ((appt.status ≠ AppointmentStatus.Booked ∨ now_utc < appt.end_dt) →
      List.Forall₂ (fun a a' =>
          (a.id ≠ apptId → a' = a) ∧
          (a.id = apptId →
            a' = { a with visit_confirmed := true, updated_at := now_utc }))
        db.appointments (admin_visit_confirm db apptId now_utc).appointments) := by
  refine ⟨?_, ?_, ?_, ?_⟩
  · intro hst
    simp only [request_reschedule, hfind]
    rw [if_pos (by simp [hst])]
  · intro hcase
    simp only [confirm_reschedule, hfind]
    cases hp : appt.proposed_alt_start_dt with
    | none => simp only [hp]
    | some p =>
      simp only [hp]
      rcases hcase with hst | hnone
      · rw [if_pos (by simp [hst])]
      · rw [hp] at hnone; cases hnone
  · intro hst
    simp only [cancel_by_client, hfind]
    rw [if_pos (by simp [hst])]
  · intro hcase
    simp only [admin_visit_confirm, hfind]
    have hcond : ¬(appt.status = AppointmentStatus.Booked ∧ appt.end_dt ≤ now_utc) := by
      rcases hcase with h | h
      · exact fun hc => h hc.1
      · exact fun hc => absurd hc.2 (by omega)
    simp only [if_neg hcond]
    exact updateAppt_frame db apptId _

/-- Witness for C8 (amended): on the concrete `Hold`-with-proposal store,
proposing fails `NotBooked`, the client cancel is a refused no-op, and the
visit-confirm path leaves the `Hold` status untouched (it only records the
visit flag). -/
theorem invalid_transition_semantics_witness :
    request_reschedule dbHoldProp 1 580 0 = Except.error Err.NotBooked ∧
    cancel_by_client dbHoldProp stgA 1 0 = (false, dbHoldProp) ∧
    List.Forall₂ (fun a a' =>
        (a.id ≠ 1 → a' = a) ∧
        (a.id = 1 →
          a' = { a with visit_confirmed := true, updated_at := (0 : Int) }))
      dbHoldProp.appointments (admin_visit_confirm dbHoldProp 1 0).appointments := by
  have h := invalid_transition_semantics dbHoldProp stgA 1 580 0 apptHoldProp (by decide)
  exact ⟨h.1 (by decide), h.2.2.1 (by decide), h.2.2.2 (Or.inl (by decide))⟩

/-! ## Claim C9 — operator reject -/

/-- Counterexample to C9 as stated: `admin_reject` transitions a `Booked`
appointment (not a `Hold`) to `Rejected`. -/
theorem admin_reject_from_booked_cex :
    apptBooked1400.status = AppointmentStatus.Booked ∧
    (admin_reject dbSlots 1 (some "declined") 7).appointments =
      [{ apptBooked1400 with
         status := AppointmentStatus.Rejected, admin_comment := some "declined",
         hold_expires_at := none, updated_at := 7 }] := by decide

/-- Claim C9, amended: `admin_reject` transitions an appointment to
`Rejected` exactly when its current status is `Hold` **or** `Booked`,
recording the rejection reason in `admin_comment` and clearing the TTL; it
performs no transition from any terminal status
(`Rejected`/`Canceled`/`Completed`), and rows with other ids are never
touched. -/
theorem admin_reject_transitions (db : DB) (apptId : Nat)
    (reason : Option String) (now_utc : Int) (appt : Appointment)
    (hfind : findAppt db apptId = some appt) :
    ((appt.status = AppointmentStatus.Hold ∨ appt.status = AppointmentStatus.Booked) →
      List.Forall₂ (fun a a' =>
          (a.id ≠ apptId → a' = a) ∧
          (a.id = apptId → a' = { a with
            status := AppointmentStatus.Rejected, admin_comment := reason,
            hold_expires_at := none, updated_at := now_utc }))
        db.appointments (admin_reject db apptId reason now_utc).appointments) ∧
    (appt.status ≠ AppointmentStatus.Hold → appt.status ≠ AppointmentStatus.Booked →
      admin_reject db apptId reason now_utc = db) := by
  constructor
  · intro hst
    simp only [admin_reject, hfind]
    rw [if_pos hst]
    exact updateAppt_frame db apptId _
  · intro h1 h2
    simp only [admin_reject, hfind]
    rw [if_neg (by simp [h1, h2])]

/-- Witness for C9 (amended): rejecting the concrete due hold (id 3). -/
theorem admin_reject_transitions_witness :
    List.Forall₂ (fun a a' =>
        (a.id ≠ 3 → a' = a) ∧
        (a.id = 3 → a' = { a with
          status := AppointmentStatus.Rejected, admin_comment := some "r",
          hold_expires_at := none, updated_at := (7 : Int) }))
      dbTick.appointments (admin_reject dbTick 3 (some "r") 7).appointments :=
  (admin_reject_transitions dbTick 3 (some "r") 7 holdDue3 (by decide)).1
    (Or.inl (by decide))

/-! ## Claim C10 — reschedule preserves span length -/

/-- Claim C10: Both steps of the reschedule handshake preserve every
appointment's span length: a successful proposal leaves `start_dt`/`end_dt`
untouched, and a successful approval sets the new `end_dt` to the proposed
start plus the old `end_dt - start_dt`, so `end_dt - start_dt` is identical
before and after any propose/approve sequence (the occupied span is carried
over, never recomputed from the service). -/
theorem reschedule_preserves_duration (db : DB) (apptId : Nat)
    (new_start now_utc : Int) (appt : Appointment)
    (hfind : findAppt db apptId = some appt)
    (hnodup : (db.appointments.map Appointment.id).Nodup) :
    (∀ db', request_reschedule db apptId new_start now_utc = Except.ok db' →
      List.Forall₂ (fun a a' => a'.end_dt - a'.start_dt = a.end_dt - a.start_dt)
        db.appointments db'.appointments) ∧
    (∀ db', confirm_reschedule db apptId now_utc = Except.ok db' →
      List.Forall₂ (fun a a' => a'.end_dt - a'.start_dt = a.end_dt - a.start_dt)
        db.appointments db'.appointments) := by
  constructor
  · intro db' hok
    simp only [request_reschedule, hfind] at hok
    by_cases hst : appt.status = AppointmentStatus.Booked
    · rw [if_neg (by simp [hst])] at hok
      by_cases hov : apptOverlapExists db new_start
          (new_start + (appt.end_dt - appt.start_dt)) (some apptId) = true
      · rw [if_pos hov] at hok; cases hok
      · rw [if_neg hov] at hok
        by_cases hbl : blockOverlapExists db new_start
            (new_start + (appt.end_dt - appt.start_dt)) = true
        · rw [if_pos hbl] at hok; cases hok
        · rw [if_neg hbl] at hok
          cases hok
          exact updateAppt_forall₂ db apptId _ _ (fun _ _ => ⟨fun _ => rfl, fun _ => rfl⟩)
    · rw [if_pos (by simp [hst])] at hok; cases hok
  · intro db' hok
    simp only [confirm_reschedule, hfind] at hok
    cases hp : appt.proposed_alt_start_dt with
    | none =>
      simp only [hp] at hok
      cases hok
      rw [List.forall₂_same]
      intro a _; rfl
    | some p =>
      simp only [hp] at hok
      by_cases hst : appt.status = AppointmentStatus.Booked
      · rw [if_neg (by simp [hst])] at hok
        by_cases hov : apptOverlapExists db p
            (p + (appt.end_dt - appt.start_dt)) (some apptId) = true
        · rw [if_pos hov] at hok; cases hok
        · rw [if_neg hov] at hok
          by_cases hbl : blockOverlapExists db p
              (p + (appt.end_dt - appt.start_dt)) = true
          · rw [if_pos hbl] at hok; cases hok
          · rw [if_neg hbl] at hok
            cases hok
            refine updateAppt_forall₂ db apptId _ _ (fun a ha => ⟨?_, fun _ => rfl⟩)
            intro hid
            have ha_eq : a = appt := findAppt_unique db apptId appt hfind hnodup a ha hid
            simp [ha_eq]
      · rw [if_pos (by simp [hst])] at hok
        cases hok
        rw [List.forall₂_same]
        intro a _; rfl

/-- Witness for C10: approving the concrete proposal on `dbProp` keeps the
60-minute span. -/
theorem reschedule_preserves_duration_witness :
    List.Forall₂ (fun a a' => a'.end_dt - a'.start_dt = a.end_dt - a.start_dt)
      dbProp.appointments dbPropConf.appointments :=
  (reschedule_preserves_duration dbProp 1 580 999 apptProp (by decide)
    (by decide)).2 dbPropConf (by decide)

/-! ## Claim C1 — no-overlap invariant -/

/-- Unfolding the half-open span intersection test, positively. -/
theorem spanOverlap_eq_true_iff (s1 e1 s2 e2 : Int) :
    spanOverlap s1 e1 s2 e2 = true ↔ s1 < e2 ∧ e1 > s2 := by
  simp [spanOverlap]

/-- Unfolding the half-open span intersection test, negatively. -/
theorem spanOverlap_eq_false_iff (s1 e1 s2 e2 : Int) :
    spanOverlap s1 e1 s2 e2 = false ↔ ¬(s1 < e2 ∧ e1 > s2) := by
  rw [← Bool.not_eq_true, spanOverlap_eq_true_iff]

/-- A clean appointment-overlap query (no exclusion) means no active row
intersects the span. -/
theorem apptOverlap_none_false (db : DB) (s e : Int)
    (h : apptOverlapExists db s e none = false) :
    ∀ a ∈ db.appointments, activeStatus a.status = true →
      spanOverlap a.start_dt a.end_dt s e = false := by
  intro a ha hact
  unfold apptOverlapExists at h
  rw [List.any_eq_false] at h
  have := h a ha
  rw [spanOverlap_eq_false_iff]
  intro hc
  exact this (by simp [hact, hc.1, hc.2])

/-- A clean appointment-overlap query with an excluded id means no other
active row intersects the span. -/
theorem apptOverlap_some_false (db : DB) (s e : Int) (i : Nat)
    (h : apptOverlapExists db s e (some i) = false) :
    ∀ a ∈ db.appointments, a.id ≠ i → activeStatus a.status = true →
      spanOverlap a.start_dt a.end_dt s e = false := by
  intro a ha hne hact
  unfold apptOverlapExists at h
  rw [List.any_eq_false] at h
  have := h a ha
  rw [spanOverlap_eq_false_iff]
  intro hc
  exact this (by simp [hact, hc.1, hc.2, hne])

/-- An active row intersecting the span makes the appointment-overlap query
(no exclusion) fire. -/
theorem apptOverlap_none_true (db : DB) (s e : Int) (a : Appointment)
    (ha : a ∈ db.appointments) (hact : activeStatus a.status = true)
    (hov : spanOverlap a.start_dt a.end_dt s e = true) :
    apptOverlapExists db s e none = true := by
  unfold apptOverlapExists
  rw [List.any_eq_true]
  rw [spanOverlap_eq_true_iff] at hov
  exact ⟨a, ha, by simp [hact, hov.1, hov.2]⟩

/-- A non-excluded active row intersecting the span makes the
appointment-overlap query with exclusion fire. -/
theorem apptOverlap_some_true (db : DB) (s e : Int) (i : Nat) (a : Appointment)
    (ha : a ∈ db.appointments) (hne : a.id ≠ i)
    (hact : activeStatus a.status = true)
    (hov : spanOverlap a.start_dt a.end_dt s e = true) :
    apptOverlapExists db s e (some i) = true := by
  unfold apptOverlapExists
  rw [List.any_eq_true]
  rw [spanOverlap_eq_true_iff] at hov
  exact ⟨a, ha, by simp [hact, hov.1, hov.2, hne]⟩

/-- A successful availability check means both overlap queries were clean. -/
theorem ensure_ok_inv (db : DB) (s e : Int) (sid : Nat) (excl : Option Nat)
    (h : _ensure_slot_available db s e sid excl = Except.ok ()) :
    apptOverlapExists db s e excl = false ∧ blockOverlapExists db s e = false := by
  unfold _ensure_slot_available at h
  by_cases h1 : apptOverlapExists db s e excl = true
  · rw [if_pos h1] at h; cases h
  · rw [if_neg h1] at h
    by_cases h2 : blockOverlapExists db s e = true
    · rw [if_pos h2] at h; cases h
    · simp only [Bool.not_eq_true] at h1 h2
      exact ⟨h1, h2⟩

/-- An appointment overlap fails the availability check with `SlotTaken`. -/
theorem ensure_error_taken (db : DB) (s e : Int) (sid : Nat) (excl : Option Nat)
    (h : apptOverlapExists db s e excl = true) :
    _ensure_slot_available db s e sid excl = Except.error Err.SlotTaken := by
  unfold _ensure_slot_available
  rw [if_pos h]

/-- Claim C1: Every reservation operation — creating a Hold, creating a
Booked appointment directly, or moving an appointment through the approved
reschedule — fails with `SlotTaken` (creating and changing nothing: the
transaction rolls back) whenever an active (Hold/Booked) appointment
overlaps the requested half-open span, excluding the moved appointment
itself in the reschedule case; consequently each of these operations
preserves the invariant that no two active appointments have intersecting
`[start, end)` spans. -/
theorem reservation_no_overlap (db : DB) (settings : SettingsView)
    (client_user_id : Nat) (service : Service) (start_local : Int)
    (comment client_comment admin_comment : Option String)
    (price_override : Option Int) (now_utc : Int) (apptId : Nat) :
    ((∃ a ∈ db.appointments, activeStatus a.status = true ∧
        spanOverlap a.start_dt a.end_dt start_local
          (compute_slot_end start_local service settings) = true) →
      create_hold_appointment db settings client_user_id service start_local
          comment now_utc = Except.error Err.SlotTaken ∧
      create_admin_appointment db settings client_user_id service start_local
          price_override client_comment admin_comment now_utc
        = Except.error Err.SlotTaken) ∧
    (∀ db', create_hold_appointment db settings client_user_id service start_local
        comment now_utc = Except.ok db' → NoOverlap db → NoOverlap db') ∧
    (∀ db', create_admin_appointment db settings client_user_id service start_local
        price_override client_comment admin_comment now_utc = Except.ok db' →
      NoOverlap db → NoOverlap db') ∧
    (∀ appt p, findAppt db apptId = some appt →
      appt.status = AppointmentStatus.Booked →
      appt.proposed_alt_start_dt = some p →
      (∃ a ∈ db.appointments, a.id ≠ apptId ∧ activeStatus a.status = true ∧
        spanOverlap a.start_dt a.end_dt p (p + (appt.end_dt - appt.start_dt)) = true) →
      confirm_reschedule db apptId now_utc = Except.error Err.SlotTaken) ∧
    (∀ db', confirm_reschedule db apptId now_utc = Except.ok db' →
      (db.appointments.map Appointment.id).Nodup → NoOverlap db → NoOverlap db') := by
  refine ⟨?_, ?_, ?_, ?_, ?_⟩
  · rintro ⟨a, ha, hact, hov⟩
    have htaken := apptOverlap_none_true db start_local
      (compute_slot_end start_local service settings) a ha hact hov
    constructor
    · simp only [create_hold_appointment,
        ensure_error_taken db _ _ service.id none htaken]
    · simp only [create_admin_appointment,
        ensure_error_taken db _ _ service.id none htaken]
  · intro db' hok hno
    cases hres : _ensure_slot_available db start_local
        (compute_slot_end start_local service settings) service.id none with
    | error e =>
      simp only [create_hold_appointment, hres] at hok
      exact Except.noConfusion hok
    | ok u =>
      cases u
      obtain ⟨hov, _⟩ := ensure_ok_inv db _ _ _ _ hres
      simp only [create_hold_appointment, hres] at hok
      cases hok
      unfold NoOverlap
      rw [List.pairwise_append]
      refine ⟨hno, List.pairwise_singleton _ _, ?_⟩
      intro a ha b hb hact _
      rw [List.mem_singleton] at hb
      subst hb
      exact apptOverlap_none_false db _ _ hov a ha hact
  · intro db' hok hno
    cases hres : _ensure_slot_available db start_local
        (compute_slot_end start_local service settings) service.id none with
    | error e =>
      simp only [create_admin_appointment, hres] at hok
      exact Except.noConfusion hok
    | ok u =>
      cases u
      obtain ⟨hov, _⟩ := ensure_ok_inv db _ _ _ _ hres
      simp only [create_admin_appointment, hres] at hok
      cases hok
      unfold NoOverlap
      rw [List.pairwise_append]
      refine ⟨hno, List.pairwise_singleton _ _, ?_⟩
      intro a ha b hb hact _
      rw [List.mem_singleton] at hb
      subst hb
      exact apptOverlap_none_false db _ _ hov a ha hact
  · rintro appt p hfind hst hp ⟨a, ha, hne, hact, hov⟩
    have htaken := apptOverlap_some_true db p
      (p + (appt.end_dt - appt.start_dt)) apptId a ha hne hact hov
    simp only [confirm_reschedule, hfind, hp]
    rw [if_neg (by simp [hst]), if_pos htaken]
  · intro db' hok hnodup hno
    cases hfind : findAppt db apptId with
    | none =>
      simp only [confirm_reschedule, hfind] at hok
      cases hok
      exact hno
    | some appt =>
      cases hp : appt.proposed_alt_start_dt with
      | none =>
        simp only [confirm_reschedule, hfind, hp] at hok
        cases hok
        exact hno
      | some p =>
        simp only [confirm_reschedule, hfind, hp] at hok
        by_cases hst : appt.status = AppointmentStatus.Booked
        · rw [if_neg (by simp [hst])] at hok
          by_cases hov : apptOverlapExists db p
              (p + (appt.end_dt - appt.start_dt)) (some apptId) = true
          · rw [if_pos hov] at hok; cases hok
          · rw [if_neg hov] at hok
            by_cases hbl : blockOverlapExists db p
                (p + (appt.end_dt - appt.start_dt)) = true
            · rw [if_pos hbl] at hok; cases hok
            · rw [if_neg hbl] at hok
              cases hok
              rw [Bool.not_eq_true] at hov
              have hnov := apptOverlap_some_false db _ _ _ hov
              have hne : List.Pairwise (fun a b : Appointment => a.id ≠ b.id)
                  db.appointments := List.pairwise_map.mp hnodup
              unfold NoOverlap updateAppt
              rw [List.pairwise_map]
              refine List.Pairwise.imp_of_mem ?_ (hno.and hne)
              intro a b ha hb hab
              obtain ⟨hR, hNe⟩ := hab
              by_cases haid : a.id = apptId
              · have hbid : b.id ≠ apptId := fun hc => hNe (haid.trans hc.symm)
                rw [if_pos haid, if_neg hbid]
                intro _ hactb
                have := hnov b hb hbid (by simpa using hactb)
                rw [spanOverlap_eq_false_iff] at this
                rw [spanOverlap_eq_false_iff]
                simp only [gt_iff_lt] at this ⊢
                omega
              · rw [if_neg haid]
                by_cases hbid : b.id = apptId
                · rw [if_pos hbid]
                  intro hacta _
                  have := hnov a ha haid (by simpa using hacta)
                  rw [spanOverlap_eq_false_iff] at this
                  rw [spanOverlap_eq_false_iff]
                  simp only [gt_iff_lt] at this ⊢
                  omega
                · rw [if_neg hbid]
                  exact hR
        · rw [if_pos (by simp [hst])] at hok
          cases hok
          exact hno

/-- Witness for C1: on the store holding the 14:00 booking, creating a hold
at 14:00 fails with `SlotTaken`, and creating one on the free 15:00 slot
succeeds and preserves the no-overlap invariant. -/
theorem reservation_no_overlap_witness :
    create_hold_appointment dbSlots stgA 1 svcA 840 none 0
        = Except.error Err.SlotTaken ∧
    NoOverlap dbC1New := by
  constructor
  · exact ((reservation_no_overlap dbSlots stgA 1 svcA 840 none none none none 0 1).1
      ⟨apptBooked1400, by decide, by decide, by decide⟩).1
  · exact (reservation_no_overlap dbSlots stgA 1 svcA 900 none none none none 0 1).2.1
      dbC1New (by decide) (by decide)

/-! ## Claims C3 and C7 — availability calculator -/

/-- Candidates produced by the cursor loop never precede the loop's
starting cursor. -/
theorem slotCursor_mem_lb (we step : Int) (hstep : 0 ≤ step) :
    ∀ (fuel : Nat) (c x : Int), x ∈ slotCursor c we step fuel → c ≤ x := by
  intro fuel
  induction fuel with
  | zero => intro c x hx; simp [slotCursor] at hx
  | succ n ih =>
    intro c x hx
    unfold slotCursor at hx
    by_cases hc : c < we
    · rw [if_pos hc] at hx
      rcases List.mem_cons.mp hx with h1 | h2
      · omega
      · have := ih (c + step) x h2; omega
    · rw [if_neg hc] at hx; cases hx

/-- Counterexample to C3 as stated: with an unaligned work-window start
(09:10, step 30) the slot 09:00 is returned even though its occupied span
`[09:00, 10:00)` intersects the active booking `[08:30, 09:05)` — the
booking ends before the widened lookup window starts, so the overlap scan
never sees it. -/
theorem listSlots_overlap_cex :
    (540 : Int) ∈ list_available_slots_for_duration dbEarly stgB svcA 0 40 0 ∧
    apptEarly ∈ dbEarly.appointments ∧
    activeStatus apptEarly.status = true ∧
    spanOverlap apptEarly.start_dt apptEarly.end_dt 540
      (compute_slot_end_for_duration 540 40 svcA stgB) = true := by decide

/-- Claim C3, amended: Every start returned by `listSlots` satisfies the
lead-time bound and has occupied end
`start + duration + serviceBuffer + globalBuffer ≤ work-window end`
(half-open: occupied end exactly at the work end is allowed — such a
candidate passes and is included when it is free); and the occupied span of
a returned start intersects no Hold/Booked appointment and no
BlockedInterval **that intersects the widened lookup window**
`[workStart, workEnd + 6h)`.  (As the counterexample shows, conflicts lying
entirely before the work start can be missed for candidates produced by
rounding an unaligned work start down.)  In the §8 scenario — duration
40min, service buffer 10min, global buffer 10min — a booking at 14:00
occupies `[14:00, 15:00)` and 14:30 is not returned. -/
theorem listSlots_spec (db : DB) (settings : SettingsView) (service : Service)
    (day duration_min now_local : Int) :
    (∀ s ∈ list_available_slots_for_duration db settings service day duration_min now_local,
      now_local + settings.min_lead_time_min ≤ s ∧
      compute_slot_end_for_duration s duration_min service settings
        ≤ day * 1440 + settings.work_end ∧
      (∀ a ∈ db.appointments, activeStatus a.status = true →
        a.start_dt < day * 1440 + settings.work_end + 360 →
        a.end_dt > day * 1440 + settings.work_start →
        spanOverlap a.start_dt a.end_dt s
          (compute_slot_end_for_duration s duration_min service settings) = false) ∧
      (∀ b ∈ db.blocks,
        b.start_dt < day * 1440 + settings.work_end + 360 →
        b.end_dt > day * 1440 + settings.work_start →
        spanOverlap b.start_dt b.end_dt s
          (compute_slot_end_for_duration s duration_min service settings) = false)) ∧
    (∀ s, s ∈ slotCursor
          (_round_slot (day * 1440 + settings.work_start) settings.slot_step_min)
          (day * 1440 + settings.work_end) settings.slot_step_min
          ((day * 1440 + settings.work_end -
            _round_slot (day * 1440 + settings.work_start) settings.slot_step_min).toNat + 1) →
      now_local + settings.min_lead_time_min ≤ s →
      compute_slot_end_for_duration s duration_min service settings
        ≤ day * 1440 + settings.work_end →
      overlapsPrefetched
          (windowAppts db (day * 1440 + settings.work_start)
            (day * 1440 + settings.work_end + 360))
          (windowBlocks db (day * 1440 + settings.work_start)
            (day * 1440 + settings.work_end + 360))
          s (compute_slot_end_for_duration s duration_min service settings) = false →
      s ∈ list_available_slots_for_duration db settings service day duration_min now_local) ∧
    compute_slot_end_for_duration 840 40 svcA stgA = 900 ∧
    (870 : Int) ∉ list_available_slots_for_duration dbSlots stgA svcA 0 40 0 := by
  refine ⟨?_, ?_, by decide, by decide⟩
  · intro s hs
    unfold list_available_slots_for_duration at hs
    rw [List.mem_filter] at hs
    obtain ⟨_, hp⟩ := hs
    rw [Bool.and_eq_true, Bool.and_eq_true] at hp
    obtain ⟨hge, hend, hov⟩ := hp
    rw [decide_eq_true_eq] at hge hend
    rw [Bool.not_eq_eq_eq_not, Bool.not_true] at hov
    unfold overlapsPrefetched at hov
    rw [Bool.or_eq_false_iff] at hov
    obtain ⟨hova, hovb⟩ := hov
    rw [List.any_eq_false] at hova hovb
    refine ⟨hge, hend, ?_, ?_⟩
    · intro a ha hact h1 h2
      have hmem : a ∈ windowAppts db (day * 1440 + settings.work_start)
          (day * 1440 + settings.work_end + 360) := by
        unfold windowAppts
        rw [List.mem_filter]
        exact ⟨ha, by simp [h1, h2, hact]⟩
      have := hova a hmem
      rw [spanOverlap_eq_false_iff]
      intro hc
      exact this (by simp [hc.1, hc.2])
    · intro b hb h1 h2
      have hmem : b ∈ windowBlocks db (day * 1440 + settings.work_start)
          (day * 1440 + settings.work_end + 360) := by
        unfold windowBlocks
        rw [List.mem_filter]
        exact ⟨hb, by simp [h1, h2]⟩
      have := hovb b hmem
      rw [spanOverlap_eq_false_iff]
      intro hc
      exact this (by simp [hc.1, hc.2])
  · intro s hcand hge hend hov
    unfold list_available_slots_for_duration
    rw [List.mem_filter]
    refine ⟨hcand, ?_⟩
    rw [Bool.and_eq_true, Bool.and_eq_true]
    refine ⟨by rw [decide_eq_true_eq]; exact hge, by rw [decide_eq_true_eq]; exact hend, ?_⟩
    rw [Bool.not_eq_eq_eq_not, Bool.not_true]
    exact hov

/-- Witness for C3 (amended): the boundary slot 20:00 (occupied end exactly
at the 21:00 work end) is included on the concrete store. -/
theorem listSlots_spec_witness :
    (1200 : Int) ∈ list_available_slots_for_duration dbSlots stgA svcA 0 40 0 :=
  (listSlots_spec dbSlots stgA svcA 0 40 0).2.1 1200 (by decide) (by decide)
    (by decide) (by decide)

/-- Counterexample to C7 as stated: with work start 09:10 and step 30 the
first candidate is 09:00 — `_round_slot` rounds the minute **down**, so a
candidate earlier than the work-window start is produced (and returned on a
free calendar). -/
theorem round_slot_cex :
    (540 : Int) ∈ list_available_slots_for_duration dbEmpty stgB svcA 0 40 0 ∧
    stgB.work_start = 550 ∧ (540 : Int) < 0 * 1440 + stgB.work_start := by decide

/-- Claim C7, amended: `listSlots` rounds the work-window start's
minute-of-hour **down** to a multiple of `slotStep` before stepping:
`_round_slot` never exceeds its input, and equals it exactly when the
minute-of-hour is already a multiple of the step (in particular every
returned slot is then at or after the work-window start); in general every
returned slot is at or after the rounded-down start, and when the work
start is not step-aligned a candidate earlier than the work-window start
can be produced. -/
theorem round_slot_spec (settings : SettingsView) (db : DB) (service : Service)
    (day duration_min now_local : Int) (hstep : 1 ≤ settings.slot_step_min) :
    (∀ t : Int, _round_slot t settings.slot_step_min ≤ t) ∧
    (∀ t : Int, settings.slot_step_min ∣ t % 60 →
      _round_slot t settings.slot_step_min = t) ∧
    (∀ s ∈ list_available_slots_for_duration db settings service day duration_min now_local,
      _round_slot (day * 1440 + settings.work_start) settings.slot_step_min ≤ s) := by
  refine ⟨?_, ?_, ?_⟩
  · intro t
    unfold _round_slot
    have h1 := Int.ediv_add_emod (t % 60) settings.slot_step_min
    have h2 := Int.emod_nonneg (t % 60) (by omega : settings.slot_step_min ≠ 0)
    have h3 : t % 60 / settings.slot_step_min * settings.slot_step_min
        = settings.slot_step_min * (t % 60 / settings.slot_step_min) :=
      Int.mul_comm _ _
    omega
  · intro t hdvd
    unfold _round_slot
    rw [Int.ediv_mul_cancel hdvd]
    omega
  · intro s hs
    unfold list_available_slots_for_duration at hs
    rw [List.mem_filter] at hs
    exact slotCursor_mem_lb (day * 1440 + settings.work_end) settings.slot_step_min
      (by omega) _ _ s hs.1

/-- Witness for C7 (amended): concrete round-down values at step 30. -/
theorem round_slot_spec_witness :
    _round_slot 550 stgB.slot_step_min ≤ 550 ∧
    _round_slot 540 stgB.slot_step_min = 540 :=
  ⟨(round_slot_spec stgB dbEmpty svcA 0 40 0 (by decide)).1 550,
   (round_slot_spec stgB dbEmpty svcA 0 40 0 (by decide)).2.1 540 (by decide)⟩

/-! ## Claims C5 and C6 — break rule expansion.
Lemmas about the candidate-date cursor loop. -/

/-- The repeat step of a recurring rule is at least one day. -/
theorem repeatStep_pos (k : String) (s : Int) (h : repeatStep k = some s) :
    1 ≤ s := by
  unfold repeatStep at h
  by_cases h1 : k = "daily"
  · rw [if_pos h1] at h; cases h; omega
  · rw [if_neg h1] at h
    by_cases h2 : k = "weekly"
    · rw [if_pos h2] at h; cases h; omega
    · rw [if_neg h2] at h; cases h

/-- Candidate dates lie between the starting cursor and the horizon. -/
theorem dueDatesAux_mem_lb (t step : Int) (wd : List Int) (hstep : 0 ≤ step) :
    ∀ (fuel : Nat) (c x : Int), x ∈ dueDatesAux c t step wd fuel →
      c ≤ x ∧ x ≤ t := by
  intro fuel
  induction fuel with
  | zero => intro c x hx; simp [dueDatesAux] at hx
  | succ n ih =>
    intro c x hx
    unfold dueDatesAux at hx
    by_cases hc : c ≤ t
    · rw [if_pos hc] at hx
      by_cases hw : c % 7 ∈ wd
      · rw [if_pos hw] at hx
        rcases List.mem_cons.mp hx with rfl | h2
        · omega
        · have := ih (c + step) x h2; omega
      · rw [if_neg hw] at hx
        have := ih (c + step) x hx; omega
    · rw [if_neg hc] at hx; cases hx

/-- Every produced candidate date is on the cursor's arithmetic
progression, within the horizon, and on a working weekday. -/
theorem dueDatesAux_mem_elim (t step : Int) (wd : List Int) :
    ∀ (fuel : Nat) (c x : Int), x ∈ dueDatesAux c t step wd fuel →
      (∃ k : Nat, x = c + k * step) ∧ x ≤ t ∧ x % 7 ∈ wd := by
  intro fuel
  induction fuel with
  | zero => intro c x hx; simp [dueDatesAux] at hx
  | succ n ih =>
    intro c x hx
    unfold dueDatesAux at hx
    by_cases hc : c ≤ t
    · rw [if_pos hc] at hx
      by_cases hw : c % 7 ∈ wd
      · rw [if_pos hw] at hx
        rcases List.mem_cons.mp hx with rfl | h2
        · exact ⟨⟨0, by simp⟩, hc, hw⟩
        · obtain ⟨⟨k, hk⟩, hle, hwx⟩ := ih (c + step) x h2
          refine ⟨⟨k + 1, ?_⟩, hle, hwx⟩
          rw [hk]; push_cast; ring
      · rw [if_neg hw] at hx
        obtain ⟨⟨k, hk⟩, hle, hwx⟩ := ih (c + step) x hx
        refine ⟨⟨k + 1, ?_⟩, hle, hwx⟩
        rw [hk]; push_cast; ring
    · rw [if_neg hc] at hx; cases hx

/-- Conversely, any date on the progression, within the horizon and on a
working weekday is produced (given enough fuel). -/
theorem dueDatesAux_mem_intro (t step : Int) (wd : List Int) (hstep : 1 ≤ step) :
    ∀ (fuel : Nat) (c x : Int), (t - c).toNat < fuel →
      (∃ k : Nat, x = c + k * step) → x ≤ t → x % 7 ∈ wd →
      x ∈ dueDatesAux c t step wd fuel := by
  intro fuel
  induction fuel with
  | zero => intro c x hf _ _ _; omega
  | succ n ih =>
    rintro c x hf ⟨k, hk⟩ hle hw
    have hk0 : 0 ≤ (k : Int) * step :=
      mul_nonneg (Int.natCast_nonneg k) (by omega)
    have hcx : c ≤ x := by omega
    have hct : c ≤ t := le_trans hcx hle
    unfold dueDatesAux
    rw [if_pos hct]
    cases k with
    | zero =>
      have hxc : x = c := by simpa using hk
      subst hxc
      rw [if_pos hw]
      exact List.mem_cons_self _ _
    | succ m =>
      have hk' : x = (c + step) + m * step := by rw [hk]; push_cast; ring
      have hm0 : 0 ≤ (m : Int) * step :=
        mul_nonneg (Int.natCast_nonneg m) (by omega)
      have hxc : c + step ≤ x := by omega
      have hf' : (t - (c + step)).toNat < n := by omega
      have hmem := ih (c + step) x hf' ⟨m, hk'⟩ hle hw
      by_cases hwc : c % 7 ∈ wd
      · rw [if_pos hwc]; exact List.mem_cons_of_mem _ hmem
      · rw [if_neg hwc]; exact hmem

/-- The last produced candidate date is a member and an upper bound of the
produced list. -/
theorem dueDatesAux_getLast_max (t step : Int) (wd : List Int) (hstep : 0 ≤ step) :
    ∀ (fuel : Nat) (c L : Int),
      (dueDatesAux c t step wd fuel).getLast? = some L →
      L ∈ dueDatesAux c t step wd fuel ∧
      ∀ x ∈ dueDatesAux c t step wd fuel, x ≤ L := by
  intro fuel
  induction fuel with
  | zero => intro c L hL; simp [dueDatesAux] at hL
  | succ n ih =>
    intro c L hL
    unfold dueDatesAux at hL ⊢
    by_cases hc : c ≤ t
    · rw [if_pos hc] at hL ⊢
      by_cases hw : c % 7 ∈ wd
      · rw [if_pos hw] at hL ⊢
        cases hgl : (dueDatesAux (c + step) t step wd n).getLast? with
        | none =>
          have hnil := List.getLast?_eq_none_iff.mp hgl
          rw [hnil] at hL ⊢
          rw [List.getLast?_singleton] at hL
          cases hL
          exact ⟨List.mem_cons_self _ _, by simp⟩
        | some L' =>
          obtain ⟨hmem', hmax'⟩ := ih (c + step) L' hgl
          have htail : dueDatesAux (c + step) t step wd n ≠ [] := by
            intro hnil; rw [hnil] at hgl; cases hgl
          have hcons : (c :: dueDatesAux (c + step) t step wd n).getLast?
              = (dueDatesAux (c + step) t step wd n).getLast? := by
            cases hcase : dueDatesAux (c + step) t step wd n with
            | nil => exact absurd hcase htail
            | cons b bs => exact List.getLast?_cons_cons
          rw [hcons, hgl] at hL
          injection hL with hLL
          subst hLL
          have hlb := (dueDatesAux_mem_lb t step wd hstep n (c + step) L' hmem').1
          refine ⟨List.mem_cons_of_mem _ hmem', ?_⟩
          intro x hx
          rcases List.mem_cons.mp hx with rfl | hx'
          · omega
          · exact hmax' x hx'
      · rw [if_neg hw] at hL ⊢
        exact ih (c + step) L hL
    · rw [if_neg hc] at hL; cases hL

/-- A pass's rule mutation `ruleAfter` only ever touches `last_generated_date`. -/
theorem ruleAfter_fields (settings : SettingsView) (t : Int) (r : BreakRule) :
    (ruleAfter settings t r).repeat_kind = r.repeat_kind ∧
    (ruleAfter settings t r).weekday = r.weekday ∧
    (ruleAfter settings t r).start_date = r.start_date ∧
    (ruleAfter settings t r).start_time = r.start_time ∧
    (ruleAfter settings t r).duration_min = r.duration_min := by
  unfold ruleAfter
  by_cases h : r.repeat_kind = "daily" ∨ r.repeat_kind = "weekly"
  · rw [if_pos h]
    cases (_break_rule_due_dates r t (ruleWorkDays settings r)).getLast? with
    | none => exact ⟨rfl, rfl, rfl, rfl, rfl⟩
    | some L => exact ⟨rfl, rfl, rfl, rfl, rfl⟩
  · rw [if_neg h]
    exact ⟨rfl, rfl, rfl, rfl, rfl⟩

/-- A pass does not change the weekday filter a rule expands over. -/
theorem ruleWorkDays_ruleAfter (settings : SettingsView) (t : Int) (r : BreakRule) :
    ruleWorkDays settings (ruleAfter settings t r) = ruleWorkDays settings r := by
  obtain ⟨h1, h2, -, -, -⟩ := ruleAfter_fields settings t r
  unfold ruleWorkDays
  rw [h1]
  by_cases hw : r.repeat_kind = "weekly"
  · rw [if_pos hw, if_pos hw, h2]
  · rw [if_neg hw, if_neg hw]

/-- What a pass does to `last_generated_date`: either nothing, or it sets it
to the last candidate date of this pass. -/
theorem ruleAfter_eq (settings : SettingsView) (t : Int) (r : BreakRule) :
    ruleAfter settings t r = r ∨
    ∃ L, (_break_rule_due_dates r t (ruleWorkDays settings r)).getLast? = some L ∧
      (r.repeat_kind = "daily" ∨ r.repeat_kind = "weekly") ∧
      ruleAfter settings t r = { r with last_generated_date := some L } := by
  unfold ruleAfter
  by_cases h : r.repeat_kind = "daily" ∨ r.repeat_kind = "weekly"
  · rw [if_pos h]
    cases hgl : (_break_rule_due_dates r t (ruleWorkDays settings r)).getLast? with
    | none => exact Or.inl rfl
    | some L => exact Or.inr ⟨L, rfl, h, rfl⟩
  · rw [if_neg h]
    exact Or.inl rfl

/-- Lifting `dueDatesAux_getLast_max` to `_break_rule_due_dates`. -/
theorem dueDates_getLast_max (r : BreakRule) (t : Int) (wd : List Int) (L : Int)
    (hgl : (_break_rule_due_dates r t wd).getLast? = some L) :
    L ∈ _break_rule_due_dates r t wd ∧
    ∀ x ∈ _break_rule_due_dates r t wd, x ≤ L := by
  unfold _break_rule_due_dates at hgl ⊢
  cases hstep : repeatStep r.repeat_kind with
  | none => rw [hstep] at hgl; cases hgl
  | some step =>
    have h1 := repeatStep_pos _ _ hstep
    simp only [hstep] at hgl ⊢
    exact dueDatesAux_getLast_max t step wd (by omega) _ _ _ hgl

/-- Every candidate date of a rule is at or after its `start_date`. -/
theorem dueDates_mem_ge_start (r : BreakRule) (t : Int) (wd : List Int) :
    ∀ d ∈ _break_rule_due_dates r t wd, r.start_date ≤ d := by
  intro d hd
  unfold _break_rule_due_dates at hd
  cases hstep : repeatStep r.repeat_kind with
  | none => rw [hstep] at hd; cases hd
  | some step =>
    have h1 := repeatStep_pos _ _ hstep
    simp only [hstep] at hd
    cases hlg : r.last_generated_date with
    | none =>
      simp only [hlg] at hd
      exact (dueDatesAux_mem_lb t step wd (by omega) _ _ d hd).1
    | some lg =>
      simp only [hlg] at hd
      by_cases hgt : lg > r.start_date
      · rw [if_pos hgt] at hd
        have := (dueDatesAux_mem_lb t step wd (by omega) _ _ d hd).1
        omega
      · rw [if_neg hgt] at hd
        exact (dueDatesAux_mem_lb t step wd (by omega) _ _ d hd).1

/-- When `last_generated_date` is strictly beyond `start_date`, every
candidate date is strictly beyond `last_generated_date`. -/
theorem dueDates_mem_gt_lg (r : BreakRule) (lg t : Int) (wd : List Int)
    (hlg : r.last_generated_date = some lg) (hgt : lg > r.start_date) :
    ∀ d ∈ _break_rule_due_dates r t wd, lg < d := by
  intro d hd
  unfold _break_rule_due_dates at hd
  cases hstep : repeatStep r.repeat_kind with
  | none => rw [hstep] at hd; cases hd
  | some step =>
    have h1 := repeatStep_pos _ _ hstep
    simp only [hstep, hlg] at hd
    rw [if_pos hgt] at hd
    have := (dueDatesAux_mem_lb t step wd (by omega) _ _ d hd).1
    omega

/-- The key subset property: after a pass has advanced
`last_generated_date`, the rule's next candidate list only contains dates
the pass already considered. -/
theorem dueDates_after_sub (settings : SettingsView) (t : Int) (r : BreakRule) :
    ∀ d ∈ _break_rule_due_dates (ruleAfter settings t r) t
        (ruleWorkDays settings (ruleAfter settings t r)),
      d ∈ _break_rule_due_dates r t (ruleWorkDays settings r) := by
  intro d hd
  rw [ruleWorkDays_ruleAfter] at hd
  rcases ruleAfter_eq settings t r with heq | ⟨L, hgl, hrep, heq⟩
  · rwa [heq] at hd
  · rw [heq] at hd
    obtain ⟨step, hstep⟩ : ∃ s, repeatStep r.repeat_kind = some s := by
      rcases hrep with h | h
      · exact ⟨1, by simp [repeatStep, h]⟩
      · exact ⟨7, by simp [repeatStep, h]⟩
    have hstep1 := repeatStep_pos _ _ hstep
    obtain ⟨hmemL, -⟩ := dueDates_getLast_max r t (ruleWorkDays settings r) L hgl
    unfold _break_rule_due_dates at hd hmemL ⊢
    simp only [hstep] at hd hmemL ⊢
    by_cases hLgt : L > r.start_date
    · rw [if_pos hLgt] at hd
      obtain ⟨⟨k, hk⟩, hle, hwd⟩ := dueDatesAux_mem_elim t step _ _ _ d hd
      obtain ⟨⟨j, hj⟩, hLle, hLwd⟩ := dueDatesAux_mem_elim t step _ _ _ L hmemL
      apply dueDatesAux_mem_intro t step _ hstep1
      · omega
      · refine ⟨j + k + 1, ?_⟩
        rw [hk, hj]; push_cast; ring
      · exact hle
      · exact hwd
    · rw [if_neg hLgt] at hd
      cases hlg : r.last_generated_date with
      | none =>
        simp only [hlg]
        exact hd
      | some lg =>
        simp only [hlg] at hmemL ⊢
        by_cases hlggt : lg > r.start_date
        · rw [if_pos hlggt] at hmemL
          have := (dueDatesAux_mem_lb t step _ (by omega) _ _ L hmemL).1
          exact absurd rfl (by omega : ¬(0 : Int) = 0)
        · rw [if_neg hlggt]
          exact hd

/-- The appointment-overlap query only reads the appointment table. -/
theorem apptOverlapExists_congr (db db2 : DB) (s e : Int) (excl : Option Nat)
    (h : db2.appointments = db.appointments) :
    apptOverlapExists db2 s e excl = apptOverlapExists db s e excl := by
  unfold apptOverlapExists
  rw [h]

/-- A rejected span stays rejected when the appointment table is unchanged
and the blocked intervals only grow. -/
theorem createFails_mono (db db2 : DB) (s e : Int)
    (happt : db2.appointments = db.appointments)
    (hbl : ∀ b ∈ db.blocks, b ∈ db2.blocks) :
    createFails db s e → createFails db2 s e := by
  intro h
  rcases h with h | h
  · exact Or.inl (by rw [apptOverlapExists_congr db db2 s e none happt]; exact h)
  · refine Or.inr ?_
    unfold blockOverlapExists at h ⊢
    rw [List.any_eq_true] at h ⊢
    obtain ⟨b, hb, hp⟩ := h
    exact ⟨b, hbl b hb, hp⟩

/-- A failed blocked-interval creation means the span was rejected. -/
theorem create_error_fails (db : DB) (s dur : Int) (admin : Int)
    (reason : String) (now : Int) (e : Err)
    (h : create_blocked_interval db s dur admin reason now = Except.error e) :
    createFails db s (s + dur) := by
  unfold create_blocked_interval at h
  by_cases h1 : apptOverlapExists db s (s + dur) none = true
  · exact Or.inl h1
  · rw [if_neg h1] at h
    by_cases h2 : blockOverlapExists db s (s + dur) = true
    · exact Or.inr h2
    · rw [if_neg h2] at h
      cases h

/-- A successful blocked-interval creation means the span was clean. -/
theorem create_ok_inv (db db2 : DB) (s dur : Int) (admin : Int)
    (reason : String) (now : Int)
    (h : create_blocked_interval db s dur admin reason now = Except.ok db2) :
    apptOverlapExists db s (s + dur) none = false ∧
    blockOverlapExists db s (s + dur) = false ∧
    db2.appointments = db.appointments ∧
    db2.break_rules = db.break_rules ∧
    (∀ b ∈ db.blocks, b ∈ db2.blocks) ∧
    ({ id := db.next_block_id, start_dt := s, end_dt := s + dur,
       reason := reason, created_at := now,
       created_by_admin := admin } : BlockedInterval) ∈ db2.blocks := by
  unfold create_blocked_interval at h
  by_cases h1 : apptOverlapExists db s (s + dur) none = true
  · rw [if_pos h1] at h; cases h
  · rw [if_neg h1] at h
    by_cases h2 : blockOverlapExists db s (s + dur) = true
    · rw [if_pos h2] at h; cases h
    · rw [if_neg h2] at h
      cases h
      refine ⟨by simpa using h1, by simpa using h2, rfl, rfl, ?_, ?_⟩
      · intro b hb
        exact List.mem_append_left _ hb
      · exact List.mem_append_right _ (List.mem_singleton.mpr rfl)

/-- The day loop never touches appointments or rules and only adds blocked
intervals. -/
theorem processDays_inv (rule : BreakRule) (now : Int) :
    ∀ (days : List Int) (db : DB),
      (processDays rule days db now).1.appointments = db.appointments ∧
      (processDays rule days db now).1.break_rules = db.break_rules ∧
      ∀ b ∈ db.blocks, b ∈ (processDays rule days db now).1.blocks := by
  intro days
  induction days with
  | nil => intro db; exact ⟨rfl, rfl, fun b hb => hb⟩
  | cons d rest ih =>
    intro db
    unfold processDays
    cases hc : create_blocked_interval db (_candidate_break_start rule d)
        rule.duration_min rule.created_by_admin (ruleReason rule) now with
    | ok db2 =>
      obtain ⟨-, -, ha, hr, hbl, -⟩ := create_ok_inv _ _ _ _ _ _ _ hc
      obtain ⟨iha, ihr, ihbl⟩ := ih db2
      exact ⟨iha.trans ha, ihr.trans hr, fun b hb => ihbl b (hbl b hb)⟩
    | error e =>
      exact ih db

/-- After the day loop, every date it attempted is permanently rejected:
either the attempt failed (and the obstacle persists) or it created the
interval (which now blocks the span itself, the duration being positive). -/
theorem processDays_fails (rule : BreakRule) (now : Int)
    (hdur : 0 < rule.duration_min) :
    ∀ (days : List Int) (db : DB), ∀ d ∈ days,
      createFails (processDays rule days db now).1
        (_candidate_break_start rule d)
        (_candidate_break_start rule d + rule.duration_min) := by
  intro days
  induction days with
  | nil => intro db d hd; cases hd
  | cons d0 rest ih =>
    intro db d hd
    unfold processDays
    cases hc : create_blocked_interval db (_candidate_break_start rule d0)
        rule.duration_min rule.created_by_admin (ruleReason rule) now with
    | ok db2 =>
      obtain ⟨-, -, -, -, hbl2, hbmem⟩ := create_ok_inv _ _ _ _ _ _ _ hc
      obtain ⟨-, -, ihbl⟩ := processDays_inv rule now rest db2
      rcases List.mem_cons.mp hd with rfl | hmem
      · refine Or.inr ?_
        unfold blockOverlapExists
        rw [List.any_eq_true]
        refine ⟨_, ihbl _ hbmem, ?_⟩
        simp only [Bool.and_eq_true, decide_eq_true_eq]
        omega
      · exact ih db2 d hmem
    | error e =>
      rcases List.mem_cons.mp hd with rfl | hmem
      · have hf := create_error_fails _ _ _ _ _ _ _ hc
        obtain ⟨ha, -, hbl⟩ := processDays_inv rule now rest db
        exact createFails_mono db _ _ _ ha hbl hf
      · exact ih db d hmem

/-- If every attempted date is already rejected, the day loop is a no-op:
it creates nothing and leaves the store unchanged. -/
theorem processDays_all_fail (rule : BreakRule) (now : Int) :
    ∀ (days : List Int) (db : DB),
      (∀ d ∈ days, createFails db (_candidate_break_start rule d)
        (_candidate_break_start rule d + rule.duration_min)) →
      processDays rule days db now = (db, 0, days.length) := by
  intro days
  induction days with
  | nil => intro db _; rfl
  | cons d0 rest ih =>
    intro db hall
    unfold processDays
    cases hc : create_blocked_interval db (_candidate_break_start rule d0)
        rule.duration_min rule.created_by_admin (ruleReason rule) now with
    | ok db2 =>
      obtain ⟨h1, h2, -⟩ := create_ok_inv _ _ _ _ _ _ _ hc
      rcases hall d0 (List.mem_cons_self _ _) with hf | hf
      · rw [h1] at hf; cases hf
      · rw [h2] at hf; cases hf
    | error e =>
      rw [ih db (fun d hd => hall d (List.mem_cons_of_mem _ hd))]
      rfl

/-- Unfolding equation: one recurring rule's pass. -/
theorem processRule_eq_rec (settings : SettingsView) (t : Int) (r : BreakRule)
    (db : DB) (now : Int)
    (h : r.repeat_kind = "daily" ∨ r.repeat_kind = "weekly") :
    processRule settings t r db now =
      (ruleAfter settings t r,
       (processDays r (_break_rule_due_dates r t (ruleWorkDays settings r)) db now).1,
       (processDays r (_break_rule_due_dates r t (ruleWorkDays settings r)) db now).2.1,
       (processDays r (_break_rule_due_dates r t (ruleWorkDays settings r)) db now).2.2) := by
  unfold processRule
  rw [if_pos h]

/-- Unfolding equation: a non-recurring rule is skipped. -/
theorem processRule_eq_nonrec (settings : SettingsView) (t : Int) (r : BreakRule)
    (db : DB) (now : Int)
    (h : ¬(r.repeat_kind = "daily" ∨ r.repeat_kind = "weekly")) :
    processRule settings t r db now = (r, db, 0, 0) := by
  unfold processRule
  rw [if_neg h]

/-- Unfolding equation: the rule loop on a cons cell. -/
theorem processRules_cons (settings : SettingsView) (t now : Int)
    (r0 : BreakRule) (rest : List BreakRule) (db : DB) :
    processRules settings t (r0 :: rest) db now =
      ((processRule settings t r0 db now).1 ::
         (processRules settings t rest (processRule settings t r0 db now).2.1 now).1,
       (processRules settings t rest (processRule settings t r0 db now).2.1 now).2.1,
       (processRule settings t r0 db now).2.2.1 +
         (processRules settings t rest (processRule settings t r0 db now).2.1 now).2.2.1,
       (processRule settings t r0 db now).2.2.2 +
         (processRules settings t rest (processRule settings t r0 db now).2.1 now).2.2.2) :=
  rfl

/-- A pass rewrites each fetched rule by the pure `ruleAfter` mutation. -/
theorem processRules_fst (settings : SettingsView) (t now : Int) :
    ∀ (rules : List BreakRule) (db : DB),
      (processRules settings t rules db now).1 = rules.map (ruleAfter settings t) := by
  intro rules
  induction rules with
  | nil => intro db; rfl
  | cons r rest ih =>
    intro db
    rw [processRules_cons, List.map_cons, ih]
    by_cases h : r.repeat_kind = "daily" ∨ r.repeat_kind = "weekly"
    · rw [processRule_eq_rec settings t r db now h]
    · rw [processRule_eq_nonrec settings t r db now h]
      unfold ruleAfter
      rw [if_neg h]

/-- One rule's pass never touches appointments or other tables' rows and
only adds blocked intervals. -/
theorem processRule_inv (settings : SettingsView) (t : Int) (r : BreakRule)
    (db : DB) (now : Int) :
    (processRule settings t r db now).2.1.appointments = db.appointments ∧
    (processRule settings t r db now).2.1.break_rules = db.break_rules ∧
    ∀ b ∈ db.blocks, b ∈ (processRule settings t r db now).2.1.blocks := by
  by_cases h : r.repeat_kind = "daily" ∨ r.repeat_kind = "weekly"
  · rw [processRule_eq_rec settings t r db now h]
    exact processDays_inv r now _ db
  · rw [processRule_eq_nonrec settings t r db now h]
    exact ⟨rfl, rfl, fun b hb => hb⟩

/-- The whole pass never touches appointments and only adds blocked
intervals. -/
theorem processRules_inv (settings : SettingsView) (t now : Int) :
    ∀ (rules : List BreakRule) (db : DB),
      (processRules settings t rules db now).2.1.appointments = db.appointments ∧
      ∀ b ∈ db.blocks, b ∈ (processRules settings t rules db now).2.1.blocks := by
  intro rules
  induction rules with
  | nil => intro db; exact ⟨rfl, fun b hb => hb⟩
  | cons r rest ih =>
    intro db
    rw [processRules_cons]
    obtain ⟨h1, -, h3⟩ := processRule_inv settings t r db now
    obtain ⟨ih1, ih3⟩ := ih (processRule settings t r db now).2.1
    exact ⟨ih1.trans h1, fun b hb => ih3 b (h3 b hb)⟩

/-- One recurring rule's pass permanently rejects every candidate date it
attempted. -/
theorem processRule_fails (settings : SettingsView) (t : Int) (r : BreakRule)
    (db : DB) (now : Int) (hdur : 0 < r.duration_min) :
    ∀ d ∈ _break_rule_due_dates r t (ruleWorkDays settings r),
      createFails (processRule settings t r db now).2.1
        (_candidate_break_start r d)
        (_candidate_break_start r d + r.duration_min) := by
  intro d hd
  by_cases h : r.repeat_kind = "daily" ∨ r.repeat_kind = "weekly"
  · rw [processRule_eq_rec settings t r db now h]
    exact processDays_fails r now hdur _ db d hd
  · exfalso
    have hnone : repeatStep r.repeat_kind = none := by
      unfold repeatStep
      rw [if_neg (fun hc => h (Or.inl hc)), if_neg (fun hc => h (Or.inr hc))]
    unfold _break_rule_due_dates at hd
    rw [hnone] at hd
    cases hd

/-- After a full pass, every candidate date any rule attempted is still
rejected against the final store. -/
theorem processRules_fails (settings : SettingsView) (t now : Int) :
    ∀ (rules : List BreakRule) (db : DB),
      (∀ r ∈ rules, 0 < r.duration_min) →
      ∀ r ∈ rules, ∀ d ∈ _break_rule_due_dates r t (ruleWorkDays settings r),
        createFails (processRules settings t rules db now).2.1
          (_candidate_break_start r d)
          (_candidate_break_start r d + r.duration_min) := by
  intro rules
  induction rules with
  | nil => intro db _ r hr; cases hr
  | cons r0 rest ih =>
    intro db hdur r hr d hd
    rw [processRules_cons]
    rcases List.mem_cons.mp hr with rfl | hmem
    · have hf := processRule_fails settings t r db now
        (hdur r (List.mem_cons_self _ _)) d hd
      obtain ⟨ha, hbl⟩ := processRules_inv settings t now rest
        (processRule settings t r db now).2.1
      exact createFails_mono _ _ _ _ ha hbl hf
    · exact ih (processRule settings t r0 db now).2.1
        (fun r' hr' => hdur r' (List.mem_cons_of_mem _ hr')) r hmem d hd

/-- If every rule's candidate dates are already rejected against a base
store whose obstacles persist, a pass creates nothing. -/
theorem processRules_no_create (settings : SettingsView) (t now : Int)
    (dbBase : DB) :
    ∀ (rules : List BreakRule) (db : DB),
      db.appointments = dbBase.appointments →
      (∀ b ∈ dbBase.blocks, b ∈ db.blocks) →
      (∀ r ∈ rules, ∀ d ∈ _break_rule_due_dates r t (ruleWorkDays settings r),
        createFails dbBase (_candidate_break_start r d)
          (_candidate_break_start r d + r.duration_min)) →
      (processRules settings t rules db now).2.2.1 = 0 := by
  intro rules
  induction rules with
  | nil => intro db _ _ _; rfl
  | cons r0 rest ih =>
    intro db happt hbl hfails
    rw [processRules_cons]
    by_cases h : r0.repeat_kind = "daily" ∨ r0.repeat_kind = "weekly"
    · have hall : ∀ d ∈ _break_rule_due_dates r0 t (ruleWorkDays settings r0),
          createFails db (_candidate_break_start r0 d)
            (_candidate_break_start r0 d + r0.duration_min) :=
        fun d hd => createFails_mono dbBase db _ _ happt hbl
          (hfails r0 (List.mem_cons_self _ _) d hd)
      have hpd := processDays_all_fail r0 now _ db hall
      rw [processRule_eq_rec settings t r0 db now h, hpd]
      show 0 + (processRules settings t rest db now).2.2.1 = 0
      rw [Nat.zero_add]
      exact ih db happt hbl (fun r hr => hfails r (List.mem_cons_of_mem _ hr))
    · rw [processRule_eq_nonrec settings t r0 db now h]
      show 0 + (processRules settings t rest db now).2.2.1 = 0
      rw [Nat.zero_add]
      exact ih db happt hbl (fun r hr => hfails r (List.mem_cons_of_mem _ hr))

/-- Counterexample to C5 as stated: a rule whose `lastGeneratedDate` equals
its `startDate` (a state `generate_breaks_from_rules` itself produces, and
which the admin handler creates directly) is *not* restarted strictly after
`lastGeneratedDate`: the single expansion run considers — and regenerates —
the date `0 = lastGeneratedDate` itself, creating one interval for it. -/
theorem break_rule_regenerates_cex :
    bruleEdge.last_generated_date = some 0 ∧
    bruleEdge.start_date = 0 ∧
    _break_rule_due_dates bruleEdge 0 (ruleWorkDays stgA bruleEdge) = [0] ∧
    (generate_breaks_from_rules dbBreakEdge stgA 0 0 0).2.1 = 1 := by decide

/-- Claim C5, amended: When `lastGeneratedDate` is strictly greater than
`startDate`, an expansion run only considers candidate dates strictly
greater than `lastGeneratedDate`; every candidate date is at least
`startDate`; and a run only moves each rule's `lastGeneratedDate` forward
(to the last candidate considered), never backward.  However, when
`lastGeneratedDate ≤ startDate` (in particular when it *equals*
`startDate`), the run restarts from `startDate`, so a candidate date equal
to `lastGeneratedDate` can be reconsidered and regenerated. -/
theorem break_rule_forward_progress (rule : BreakRule) (through : Int)
    (wd : List Int) (lg : Int) (hlg : rule.last_generated_date = some lg)
    (settings : SettingsView) (db : DB) (horizon now_local now_utc : Int) :
    (lg > rule.start_date → ∀ d ∈ _break_rule_due_dates rule through wd, lg < d) ∧
    (∀ d ∈ _break_rule_due_dates rule through wd, rule.start_date ≤ d) ∧
    List.Forall₂ (fun r0 r1 => ∀ v, r0.last_generated_date = some v →
        ∃ v', r1.last_generated_date = some v' ∧ v ≤ v')
      db.break_rules
      (generate_breaks_from_rules db settings horizon now_local now_utc).1.break_rules := by
  refine ⟨?_, ?_, ?_⟩
  · intro hgt d hd
    exact dueDates_mem_gt_lg rule lg through wd hlg hgt d hd
  · exact dueDates_mem_ge_start rule through wd
  · have hrules : (generate_breaks_from_rules db settings horizon now_local now_utc).1.break_rules
        = db.break_rules.map
          (ruleAfter settings ((now_local + horizon * 1440) / 1440)) := by
      show (processRules settings ((now_local + horizon * 1440) / 1440)
          db.break_rules db now_utc).1 = _
      exact processRules_fst settings _ now_utc db.break_rules db
    rw [hrules, List.forall₂_map_right_iff, List.forall₂_same]
    intro r hr v hv
    rcases ruleAfter_eq settings ((now_local + horizon * 1440) / 1440) r with
      heq | ⟨L, hgl, hrep, heq⟩
    · rw [heq]
      exact ⟨v, hv, le_refl v⟩
    · rw [heq]
      refine ⟨L, rfl, ?_⟩
      obtain ⟨hmemL, -⟩ := dueDates_getLast_max r _ _ L hgl
      by_cases hvgt : v > r.start_date
      · have := dueDates_mem_gt_lg r v _ _ hv hvgt L hmemL
        omega
      · have := dueDates_mem_ge_start r _ _ L hmemL
        omega

/-- Witness for C5 (amended): the concrete edge store, where the
`lastGeneratedDate = startDate` rule still only moves forward. -/
theorem break_rule_forward_progress_witness :
    List.Forall₂ (fun r0 r1 => ∀ v, r0.last_generated_date = some v →
        ∃ v', r1.last_generated_date = some v' ∧ v ≤ v')
      dbBreakEdge.break_rules
      (generate_breaks_from_rules dbBreakEdge stgA 0 0 0).1.break_rules :=
  (break_rule_forward_progress bruleEdge 0 (ruleWorkDays stgA bruleEdge) 0
    (by decide) stgA dbBreakEdge 0 0 0).2.2

/-- Claim C6: Break expansion is idempotent: whatever the starting store,
running `generate_breaks_from_rules` twice with the same settings and the
same horizon (rule durations being positive) creates zero additional
blocked intervals on the second run. -/
theorem expand_idempotent (db : DB) (settings : SettingsView)
    (horizon now_local now_utc now_utc2 : Int)
    (hdur : ∀ r ∈ db.break_rules, 0 < r.duration_min) :
    (generate_breaks_from_rules
      (generate_breaks_from_rules db settings horizon now_local now_utc).1
      settings horizon now_local now_utc2).2.1 = 0 := by
  have hrun1 := processRules_fails settings ((now_local + horizon * 1440) / 1440)
    now_utc db.break_rules db hdur
  show (processRules settings ((now_local + horizon * 1440) / 1440)
      (generate_breaks_from_rules db settings horizon now_local now_utc).1.break_rules
      (generate_breaks_from_rules db settings horizon now_local now_utc).1
      now_utc2).2.2.1 = 0
  refine processRules_no_create settings ((now_local + horizon * 1440) / 1440)
    now_utc2 (generate_breaks_from_rules db settings horizon now_local now_utc).1
    _ _ rfl (fun b hb => hb) ?_
  intro r hr d hd
  have hrules : (generate_breaks_from_rules db settings horizon now_local now_utc).1.break_rules
      = db.break_rules.map
        (ruleAfter settings ((now_local + horizon * 1440) / 1440)) := by
    show (processRules settings ((now_local + horizon * 1440) / 1440)
        db.break_rules db now_utc).1 = _
    exact processRules_fst settings _ now_utc db.break_rules db
  rw [hrules] at hr
  obtain ⟨r0, hr0, rfl⟩ := List.mem_map.mp hr
  have hd' := dueDates_after_sub settings ((now_local + horizon * 1440) / 1440) r0 d hd
  have hf := hrun1 r0 hr0 d hd'
  obtain ⟨-, -, -, hst, hdm⟩ :=
    ruleAfter_fields settings ((now_local + horizon * 1440) / 1440) r0
  unfold _candidate_break_start
  rw [hst, hdm]
  exact createFails_mono _ _ _ _ rfl (fun b hb => hb) hf

/-- Witness for C6: expanding the concrete daily rule twice over the same
3-day horizon creates nothing the second time. -/
theorem expand_idempotent_witness :
    (generate_breaks_from_rules
      (generate_breaks_from_rules dbBreaks stgA 3 0 0).1 stgA 3 0 17).2.1 = 0 :=
  expand_idempotent dbBreaks stgA 3 0 0 17 (by decide)

end Epil
